import Mathlib

set_option maxHeartbeats 1000000

/-!
Verification development for the GskPath geometry kernel
(`gsk/gskpath.c`, `gsk/gskpathpoint.c`).

The development has two layers.

The first layer embeds the path aggregate of `gskpath.c`: a path is the
list of its contours together with the flags derived at construction
time.  The contour operations that `gskpath.c` consumes
(`gsk_contour_get_flags`, `gsk_contour_get_winding`,
`gsk_contour_get_bounds`, `gsk_contour_get_n_ops`) live outside the
excerpted sources, so a contour is abstracted by the answers it gives to
exactly those queries.

The second layer embeds the text codec: the path parser
(`gsk_path_parse` and its helper scanners) is translated into an
executable state machine over `List Char`, with exact rational
coordinates in place of C doubles.  The path builder and the contour
printer are external collaborators and are modelled from the spec.
-/



/-- Two-dimensional point with exact rational coordinates
(model of `graphene_point_t`). -/
structure GPoint where
  x : ℚ
  y : ℚ
deriving DecidableEq

/-- Path flags, mirroring `GskPathFlags` (`GSK_PATH_CLOSED`, `GSK_PATH_FLAT`). -/
structure GskPathFlags where
  closed : Bool
  flat : Bool
deriving DecidableEq

/-- Axis-aligned bounding box, mirroring `GskBoundingBox`
(kept as the two corner points). -/
structure GskBoundingBox where
  minX : ℚ
  minY : ℚ
  maxX : ℚ
  maxY : ℚ
deriving DecidableEq

/-- Rectangle given by origin and size, mirroring `graphene_rect_t`. -/
structure GRect where
  x : ℚ
  y : ℚ
  w : ℚ
  h : ℚ
deriving DecidableEq

/-- Modelled from the spec: the contour contract of section 4.2 consumed by
`gskpath.c`.  The contour implementation (`gskcontour.c`) is missing from the
sources, so a contour is abstracted by the data the path code reads from it:
its closed and flat flags, its winding-contribution function
(`gsk_contour_get_winding`), its bounding box (`gsk_contour_get_bounds`) and
its operation count (`gsk_contour_get_n_ops`). -/
structure GskContour where
  closed : Bool
  flat : Bool
  winding : GPoint → ℤ
  bounds : GskBoundingBox
  nOps : ℕ

/-- Flags of a contour as a `GskPathFlags` value
(model of `gsk_contour_get_flags`). -/
def gsk_contour_get_flags (c : GskContour) : GskPathFlags :=
  ⟨c.closed, c.flat⟩

/-- The `GskPath` struct: derived flags plus the contours, in insertion
order (`struct _GskPath`; the reference count is memory management and is
not modelled). -/
structure GskPath where
  flags : GskPathFlags
  contours : List GskContour

/-- Model of `gsk_path_new_from_contours`: the path stores the contour list
and the bitwise AND, over all contours, of the CLOSED and FLAT flags,
starting from both flags set. -/
def gsk_path_new_from_contours (cs : List GskContour) : GskPath :=
  { flags := cs.foldl
      (fun f c => ⟨f.closed && (gsk_contour_get_flags c).closed,
                   f.flat && (gsk_contour_get_flags c).flat⟩)
      ⟨true, true⟩
    contours := cs }

/-- Model of `gsk_path_get_flags`. -/
def gsk_path_get_flags (p : GskPath) : GskPathFlags :=
  p.flags

/-- Model of `gsk_path_get_n_contours`. -/
def gsk_path_get_n_contours (p : GskPath) : ℕ :=
  p.contours.length

/-- Model of `gsk_path_is_empty`. -/
def gsk_path_is_empty (p : GskPath) : Bool :=
  gsk_path_get_n_contours p = 0

/-- Model of `gsk_path_is_closed`: `FALSE` unless there is exactly one
contour, else that contour's CLOSED flag. -/
def gsk_path_is_closed (p : GskPath) : Bool :=
  match p.contours with
  | [c] => (gsk_contour_get_flags c).closed
  | _ => false

/-- Model of `gsk_bounding_box_union`. -/
def gsk_bounding_box_union (a b : GskBoundingBox) : GskBoundingBox :=
  ⟨min a.minX b.minX, min a.minY b.minY, max a.maxX b.maxX, max a.maxY b.maxY⟩

/-- Model of `gsk_bounding_box_to_rect`. -/
def gsk_bounding_box_to_rect (b : GskBoundingBox) : GRect :=
  ⟨b.minX, b.minY, b.maxX - b.minX, b.maxY - b.minY⟩

/-- Model of `graphene_rect_zero`. -/
def graphene_rect_zero : GRect := ⟨0, 0, 0, 0⟩

/-- Model of `gsk_path_get_bounds`: `(FALSE, zero rect)` for an empty path,
else `TRUE` together with the union of the per-contour bounding boxes,
accumulated in contour order starting from contour 0. -/
def gsk_path_get_bounds (p : GskPath) : Bool × GRect :=
  match p.contours with
  | [] => (false, graphene_rect_zero)
  | c :: cs =>
    (true, gsk_bounding_box_to_rect
      (cs.foldl (fun b c2 => gsk_bounding_box_union b c2.bounds) c.bounds))

/-- Fill rules, mirroring `GskFillRule`. -/
inductive GskFillRule where
  | winding : GskFillRule
  | evenOdd : GskFillRule
deriving DecidableEq

/-- The winding sum computed by the loop in `gsk_path_in_fill`: contributions
of all contours, added in contour order. -/
def contourWindingSum (p : GskPath) (pt : GPoint) : ℤ :=
  (p.contours.map (fun c => c.winding pt)).sum

/-- Model of `gsk_path_in_fill`: sum the winding contributions over all
contours; under EVEN_ODD the C code returns `winding & 1` (nonzero iff the
sum is odd, also for negative sums in two's complement), under WINDING it
returns `winding != 0`. -/
def gsk_path_in_fill (p : GskPath) (pt : GPoint) (rule : GskFillRule) : Bool :=
  match rule with
  | .evenOdd => decide (contourWindingSum p pt % 2 ≠ 0)
  | .winding => decide (contourWindingSum p pt ≠ 0)

/-- The `GskRealPathPoint` struct: contour index, operation index and
parameter. -/
structure GskRealPathPoint where
  contour : ℕ
  idx : ℕ
  t : ℚ
deriving DecidableEq

/-- Model of `gsk_path_get_start_point`: no point for an empty path, else
contour 0, operation index 1, parameter 0. -/
def gsk_path_get_start_point (p : GskPath) : Option GskRealPathPoint :=
  match p.contours with
  | [] => none
  | _ => some ⟨0, 1, 0⟩

/-- Model of `gsk_path_get_end_point`: no point for an empty path, else the
last contour, its last operation index (`gsk_contour_get_n_ops - 1`), and
parameter 1. -/
def gsk_path_get_end_point (p : GskPath) : Option GskRealPathPoint :=
  match p.contours.getLast? with
  | none => none
  | some c => some ⟨p.contours.length - 1, c.nOps - 1, 1⟩

/-- Model of `gsk_path_point_equal`: same contour and either identical
`(idx, t)` or the two canonical spellings of a segment boundary,
`(idx, 1)` against `(idx + 1, 0)`. -/
def gsk_path_point_equal (p1 p2 : GskRealPathPoint) : Bool :=
  if p1.contour = p2.contour then
    if (p1.idx = p2.idx ∧ p1.t = p2.t) ∨
       (p1.idx + 1 = p2.idx ∧ p1.t = 1 ∧ p2.t = 0) ∨
       (p1.idx = p2.idx + 1 ∧ p1.t = 0 ∧ p2.t = 1)
    then true
    else false
  else false

/-- Model of `gsk_path_point_compare`: 0 for equal points, else the
lexicographic comparison of `(contour, idx, t)`. -/
def gsk_path_point_compare (p1 p2 : GskRealPathPoint) : ℤ :=
  if gsk_path_point_equal p1 p2 then 0
  else if p1.contour < p2.contour then -1
  else if p2.contour < p1.contour then 1
  else if p1.idx < p2.idx then -1
  else if p2.idx < p1.idx then 1
  else if p1.t < p2.t then -1
  else if p2.t < p1.t then 1
  else 0

/-- Strict lexicographic order on the raw `(contour, idx, t)` triples. -/
def pointLexLt (p q : GskRealPathPoint) : Prop :=
  p.contour < q.contour ∨
    (p.contour = q.contour ∧
      (p.idx < q.idx ∨ (p.idx = q.idx ∧ p.t < q.t)))

instance (p q : GskRealPathPoint) : Decidable (pointLexLt p q) := by
  unfold pointLexLt; infer_instance

/-- Arc-length style position of a location inside its contour: operation
index plus parameter.  For parameters in `[0, 1]` two locations of one
contour denote the same point exactly when these positions agree. -/
def pointPos (p : GskRealPathPoint) : ℚ :=
  (p.idx : ℚ) + p.t

/-- Box `a` is contained in box `b`. -/
def bboxSubset (a b : GskBoundingBox) : Prop :=
  b.minX ≤ a.minX ∧ b.minY ≤ a.minY ∧ a.maxX ≤ b.maxX ∧ a.maxY ≤ b.maxY

/-- ASCII whitespace accepted by `g_ascii_isspace`: space, tab, newline,
carriage return, vertical tab, form feed. -/
def isSpaceC (c : Char) : Bool :=
  c = ' ' || c = '\t' || c = '\n' || c = '\r' || c = Char.ofNat 11 || c = Char.ofNat 12

/-- Model of `skip_whitespace`: drop leading ASCII whitespace. -/
def skip_whitespace : List Char → List Char
  | [] => []
  | c :: l => if isSpaceC c then skip_whitespace l else c :: l

/-- Model of `skip_optional_comma`: skip whitespace, then consume at most one
comma.  Also reports whether a comma was consumed (in the C code this shows
up as `p[-1] == ','` when the caller recomputes `after_comma`). -/
def skip_optional_comma (l : List Char) : Bool × List Char :=
  match skip_whitespace l with
  | [] => (false, [])
  | c :: r => if c = ',' then (true, r) else (false, c :: r)

/-- Numeric value of a decimal digit character. -/
def digitVal (c : Char) : ℕ :=
  c.toNat - '0'.toNat

/-- Scan a maximal run of decimal digits, accumulating their value onto
`acc`; returns the value, the number of digits consumed and the rest. -/
def readDigits : List Char → ℕ → ℕ × ℕ × List Char
  | [], acc => (acc, 0, [])
  | c :: l, acc =>
    if c.isDigit then
      let (v, n, r) := readDigits l (10 * acc + digitVal c)
      (v, n + 1, r)
    else (acc, 0, c :: l)

/-- Does the list start with the character `c`? -/
def headIs (c : Char) : List Char → Bool
  | [] => false
  | d :: _ => d = c

/-- Model of `g_ascii_strtod` as used by the path parser: skip leading
whitespace, an optional sign, a decimal mantissa (digits, optionally with a
fractional part introduced by a dot; at least one digit in total), and an
optional exponent (`e`/`E`, optional sign, at least one digit — if no digit
follows, the exponent marker is not consumed, as in C `strtod`).  Returns
the exact rational value and the unconsumed rest, or `none` when no number
could be read (the C call then leaves the end pointer at the start).
Hexadecimal floats and `inf`/`nan` spellings are not representable as exact
rationals and are outside this model.  The phases of the scan are split into
helper functions: sign, fractional part, exponent. -/
def strtodSign (l1 : List Char) : Bool × List Char :=
  (headIs '-' l1, if headIs '-' l1 || headIs '+' l1 then l1.tail else l1)

/-- The optional fractional part of the mantissa: digits after a dot. -/
def strtodFrac (l3 : List Char) : ℕ × ℕ × List Char :=
  if headIs '.' l3 then readDigits l3.tail 0 else (0, 0, l3)

/-- The optional exponent: `e`/`E`, an optional sign and at least one digit;
when no digit follows, nothing is consumed (as in C `strtod`). -/
def strtodExp (l4 : List Char) : ℤ × List Char :=
  if headIs 'e' l4 || headIs 'E' l4 then
    let r := l4.tail
    let eneg : Bool := headIs '-' r
    let r2 := if headIs '-' r || headIs '+' r then r.tail else r
    let edr := readDigits r2 0
    if edr.2.1 = 0 then ((0 : ℤ), l4)
    else ((if eneg then -(edr.1 : ℤ) else (edr.1 : ℤ)), edr.2.2)
  else ((0 : ℤ), l4)

def g_ascii_strtod (l : List Char) : Option (ℚ × List Char) :=
  let sg := strtodSign (skip_whitespace l)
  let ipr := readDigits sg.2 0
  let fpr := strtodFrac ipr.2.2
  if ipr.2.1 + fpr.2.1 = 0 then none
  else
    let exr := strtodExp fpr.2.2
    some ((if sg.1 then (-1 : ℚ) else 1) *
          ((ipr.1 : ℚ) + (fpr.1 : ℚ) / 10 ^ fpr.2.1) * (10 : ℚ) ^ exr.1, exr.2)

/-- Model of `parse_number`: read a number with `g_ascii_strtod`, then
`skip_optional_comma`; the boolean reports whether that skip consumed a
comma (the information the C caller later reads back as `p[-1] == ','`). -/
def parse_number (l : List Char) : Option (ℚ × Bool × List Char) :=
  match g_ascii_strtod l with
  | none => none
  | some (v, l1) =>
    let s := skip_optional_comma l1
    some (v, s.1, s.2)

/-- Model of `parse_coordinate` (an alias of `parse_number`). -/
def parse_coordinate (l : List Char) : Option (ℚ × Bool × List Char) :=
  parse_number l

/-- Model of `parse_coordinate_pair`: two coordinates; on failure the C code
resets the scan position, but every caller then aborts, so only failure
itself is observable. -/
def parse_coordinate_pair (l : List Char) : Option (ℚ × ℚ × Bool × List Char) :=
  match parse_coordinate l with
  | none => none
  | some (x, _, l1) =>
    match parse_coordinate l1 with
    | none => none
    | some (y, cm, l2) => some (x, y, cm, l2)

/-- Model of `parse_nonnegative_number`: a number that is not negative. -/
def parse_nonnegative_number (l : List Char) : Option (ℚ × Bool × List Char) :=
  match parse_number l with
  | none => none
  | some (v, cm, l1) => if v < 0 then none else some (v, cm, l1)

/-- Model of `parse_flag`: skip whitespace, accept `0` or `1`, then an
optional comma. -/
def parse_flag (l : List Char) : Option (Bool × Bool × List Char) :=
  match skip_whitespace l with
  | [] => none
  | c :: r =>
    if c = '0' || c = '1' then
      let s := skip_optional_comma r
      some (c = '1', s.1, s.2)
    else none

/-- The command letters accepted after the first `M`/`m`
(the `allowed` string in `parse_command`). -/
def allCommandChars : List Char :=
  ['m', 'M', 'h', 'H', 'v', 'V', 'z', 'Z', 'l', 'L', 'c', 'C',
   's', 'S', 't', 'T', 'q', 'Q', 'a', 'A', 'e', 'E']

/-- Model of `parse_command`: before any `M` (`cmd = 'X'`) only `m`/`M` are
allowed; skip whitespace and read a command letter.  When no allowed letter
is present nothing further is consumed and the previous command repeats
(first component `true`); the whitespace skip is kept, as in the C code. -/
def parse_command (cmd : Char) (l : List Char) : Bool × Char × List Char :=
  let allowed := if cmd = 'X' then ['m', 'M'] else allCommandChars
  match skip_whitespace l with
  | [] => (true, cmd, [])
  | c :: r => if allowed.contains c then (false, c, r) else (true, cmd, c :: r)

/-- One drawing command recorded against the path builder.  `arc` is the
tangent-defined `E` arc (`gsk_path_builder_arc_to`); `svgArc` keeps the raw
arguments of `gsk_path_builder_svg_arc_to`. -/
inductive GSeg where
  | line (p : GPoint) : GSeg
  | quad (p1 p2 : GPoint) : GSeg
  | cubic (p1 p2 p3 : GPoint) : GSeg
  | arc (p1 p2 : GPoint) : GSeg
  | svgArc (rx ry rot : ℚ) (largeArc sweep : Bool) (p : GPoint) : GSeg
deriving DecidableEq

/-- Modelled from the spec: one contour as materialized by the external
path builder — a start point (the initial move), the drawing commands that
follow it, and whether the contour was closed. -/
structure MContour where
  start : GPoint
  segs : List GSeg
  closed : Bool
deriving DecidableEq

/-- Modelled from the spec: the mutable state of the external
`GskPathBuilder` collaborator — finished contours plus the contour being
built. -/
structure GskPathBuilder where
  done : List MContour
  cur : Option MContour
deriving DecidableEq

/-- Contours of the builder if it were finished now. -/
def GskPathBuilder.flush (b : GskPathBuilder) : List MContour :=
  match b.cur with
  | none => b.done
  | some c => b.done ++ [c]

/-- Modelled from the spec: `gsk_path_builder_move_to` ends the current
contour (if any) and starts a new one at `p`. -/
def gsk_path_builder_move_to (b : GskPathBuilder) (p : GPoint) : GskPathBuilder :=
  ⟨b.flush, some ⟨p, [], false⟩⟩

/-- Modelled from the spec: append a drawing command to the current contour.
A drawing command with no current contour starts one at the builder's
initial current point `(0, 0)`; the parser never does this, since commands
before the first `M` are rejected. -/
def GskPathBuilder.addSeg (b : GskPathBuilder) (s : GSeg) : GskPathBuilder :=
  match b.cur with
  | some c => ⟨b.done, some ⟨c.start, c.segs ++ [s], c.closed⟩⟩
  | none => ⟨b.done, some ⟨⟨0, 0⟩, [s], false⟩⟩

/-- Modelled from the spec: `gsk_path_builder_line_to`. -/
def gsk_path_builder_line_to (b : GskPathBuilder) (x y : ℚ) : GskPathBuilder :=
  b.addSeg (.line ⟨x, y⟩)

/-- Modelled from the spec: `gsk_path_builder_quad_to`. -/
def gsk_path_builder_quad_to (b : GskPathBuilder) (x1 y1 x2 y2 : ℚ) : GskPathBuilder :=
  b.addSeg (.quad ⟨x1, y1⟩ ⟨x2, y2⟩)

/-- Modelled from the spec: `gsk_path_builder_cubic_to`. -/
def gsk_path_builder_cubic_to (b : GskPathBuilder) (x0 y0 x1 y1 x2 y2 : ℚ) : GskPathBuilder :=
  b.addSeg (.cubic ⟨x0, y0⟩ ⟨x1, y1⟩ ⟨x2, y2⟩)

/-- Modelled from the spec: `gsk_path_builder_arc_to` (the tangent-defined
`E` arc). -/
def gsk_path_builder_arc_to (b : GskPathBuilder) (x1 y1 x2 y2 : ℚ) : GskPathBuilder :=
  b.addSeg (.arc ⟨x1, y1⟩ ⟨x2, y2⟩)

/-- Modelled from the spec: `gsk_path_builder_svg_arc_to`, recorded with its
raw SVG arguments. -/
def gsk_path_builder_svg_arc_to (b : GskPathBuilder) (rx ry rot : ℚ)
    (largeArc sweep : Bool) (x y : ℚ) : GskPathBuilder :=
  b.addSeg (.svgArc rx ry rot largeArc sweep ⟨x, y⟩)

/-- Modelled from the spec: `gsk_path_builder_close` marks the current
contour closed and finishes it; with no current contour it does nothing. -/
def gsk_path_builder_close (b : GskPathBuilder) : GskPathBuilder :=
  match b.cur with
  | some c => ⟨b.done ++ [⟨c.start, c.segs, true⟩], none⟩
  | none => b

/-- Modelled from the spec: `gsk_path_builder_free_to_path` — the finished
path, identified with its list of contours. -/
def gsk_path_builder_free_to_path (b : GskPathBuilder) : List MContour :=
  b.flush

/-- The local variables of `gsk_path_parse` that persist across loop
iterations: the builder, the last command letter (`'X'` before any
command), the current point, the current subpath start, the previous
control point for smooth curves, and whether the scan position sits just
after a comma. -/
structure ParseState where
  b : GskPathBuilder
  cmd : Char
  x : ℚ
  y : ℚ
  pathX : ℚ
  pathY : ℚ
  prevX1 : ℚ
  prevY1 : ℚ
  afterComma : Bool
deriving DecidableEq

/-- The initial parser state of `gsk_path_parse`. -/
def initParseState : ParseState :=
  ⟨⟨[], none⟩, 'X', 0, 0, 0, 0, 0, 0, false⟩

/-- The implicit reopening of a subpath after `Z`: every drawing command
checks `strchr ("zZ", prev_cmd)` and, when it matches, issues a move to the
current point and resets the subpath start. -/
def maybeReopen (prevCmd : Char) (st : ParseState) : ParseState :=
  if prevCmd = 'z' || prevCmd = 'Z' then
    { st with b := gsk_path_builder_move_to st.b ⟨st.x, st.y⟩,
              pathX := st.x, pathY := st.y }
  else st

/-- One iteration of the `while (*p)` loop of `gsk_path_parse`: read or
repeat a command and execute it.  `none` is the `goto error` path. -/
def parseIter (st : ParseState) (l : List Char) : Option (ParseState × List Char) :=
  let prevCmd := st.cmd
  let pc := parse_command st.cmd l
  let rep := pc.1
  let cmd := pc.2.1
  let l1 := pc.2.2
  if st.afterComma && !rep then none
  else if cmd = 'X' then none
  else if cmd = 'Z' || cmd = 'z' then
    if rep then none
    else some ({ st with b := gsk_path_builder_close st.b,
                         x := st.pathX, y := st.pathY,
                         cmd := cmd, afterComma := false }, l1)
  else if cmd = 'M' || cmd = 'm' then
    match parse_coordinate_pair l1 with
    | none => none
    | some (x1, y1, cm, l2) =>
      let x1 := if cmd = 'm' then x1 + st.x else x1
      let y1 := if cmd = 'm' then y1 + st.y else y1
      if rep then
        some ({ st with b := gsk_path_builder_line_to st.b x1 y1,
                        x := x1, y := y1, cmd := cmd, afterComma := cm }, l2)
      else if prevCmd = 'z' || prevCmd = 'Z' || prevCmd = 'X' then
        some ({ st with b := gsk_path_builder_move_to st.b ⟨x1, y1⟩,
                        x := x1, y := y1, pathX := x1, pathY := y1,
                        cmd := cmd, afterComma := cm }, l2)
      else
        some ({ st with b := gsk_path_builder_move_to st.b ⟨x1, y1⟩,
                        x := x1, y := y1, cmd := cmd, afterComma := cm }, l2)
  else if cmd = 'L' || cmd = 'l' then
    match parse_coordinate_pair l1 with
    | none => none
    | some (x1, y1, cm, l2) =>
      let x1 := if cmd = 'l' then x1 + st.x else x1
      let y1 := if cmd = 'l' then y1 + st.y else y1
      let st := maybeReopen prevCmd st
      some ({ st with b := gsk_path_builder_line_to st.b x1 y1,
                      x := x1, y := y1, cmd := cmd, afterComma := cm }, l2)
  else if cmd = 'H' || cmd = 'h' then
    match parse_coordinate l1 with
    | none => none
    | some (x1, cm, l2) =>
      let x1 := if cmd = 'h' then x1 + st.x else x1
      let st := maybeReopen prevCmd st
      some ({ st with b := gsk_path_builder_line_to st.b x1 st.y,
                      x := x1, cmd := cmd, afterComma := cm }, l2)
  else if cmd = 'V' || cmd = 'v' then
    match parse_coordinate l1 with
    | none => none
    | some (y1, cm, l2) =>
      let y1 := if cmd = 'v' then y1 + st.y else y1
      let st := maybeReopen prevCmd st
      some ({ st with b := gsk_path_builder_line_to st.b st.x y1,
                      y := y1, cmd := cmd, afterComma := cm }, l2)
  else if cmd = 'C' || cmd = 'c' then
    match parse_coordinate_pair l1 with
    | none => none
    | some (x0, y0, _, l2) =>
      match parse_coordinate_pair l2 with
      | none => none
      | some (x1, y1, _, l3) =>
        match parse_coordinate_pair l3 with
        | none => none
        | some (x2, y2, cm, l4) =>
          let x0 := if cmd = 'c' then x0 + st.x else x0
          let y0 := if cmd = 'c' then y0 + st.y else y0
          let x1 := if cmd = 'c' then x1 + st.x else x1
          let y1 := if cmd = 'c' then y1 + st.y else y1
          let x2 := if cmd = 'c' then x2 + st.x else x2
          let y2 := if cmd = 'c' then y2 + st.y else y2
          let st := maybeReopen prevCmd st
          some ({ st with b := gsk_path_builder_cubic_to st.b x0 y0 x1 y1 x2 y2,
                          prevX1 := x1, prevY1 := y1,
                          x := x2, y := y2, cmd := cmd, afterComma := cm }, l4)
  else if cmd = 'S' || cmd = 's' then
    match parse_coordinate_pair l1 with
    | none => none
    | some (x1, y1, _, l2) =>
      match parse_coordinate_pair l2 with
      | none => none
      | some (x2, y2, cm, l3) =>
        let x1 := if cmd = 's' then x1 + st.x else x1
        let y1 := if cmd = 's' then y1 + st.y else y1
        let x2 := if cmd = 's' then x2 + st.x else x2
        let y2 := if cmd = 's' then y2 + st.y else y2
        let x0 := if prevCmd = 'C' || prevCmd = 'c' || prevCmd = 'S' || prevCmd = 's'
                  then 2 * st.x - st.prevX1 else st.x
        let y0 := if prevCmd = 'C' || prevCmd = 'c' || prevCmd = 'S' || prevCmd = 's'
                  then 2 * st.y - st.prevY1 else st.y
        let st := maybeReopen prevCmd st
        some ({ st with b := gsk_path_builder_cubic_to st.b x0 y0 x1 y1 x2 y2,
                        prevX1 := x1, prevY1 := y1,
                        x := x2, y := y2, cmd := cmd, afterComma := cm }, l3)
  else if cmd = 'Q' || cmd = 'q' then
    match parse_coordinate_pair l1 with
    | none => none
    | some (x1, y1, _, l2) =>
      match parse_coordinate_pair l2 with
      | none => none
      | some (x2, y2, cm, l3) =>
        let x1 := if cmd = 'q' then x1 + st.x else x1
        let y1 := if cmd = 'q' then y1 + st.y else y1
        let x2 := if cmd = 'q' then x2 + st.x else x2
        let y2 := if cmd = 'q' then y2 + st.y else y2
        let st := maybeReopen prevCmd st
        some ({ st with b := gsk_path_builder_quad_to st.b x1 y1 x2 y2,
                        prevX1 := x1, prevY1 := y1,
                        x := x2, y := y2, cmd := cmd, afterComma := cm }, l3)
  else if cmd = 'T' || cmd = 't' then
    match parse_coordinate_pair l1 with
    | none => none
    | some (x2, y2, cm, l2) =>
      let x2 := if cmd = 't' then x2 + st.x else x2
      let y2 := if cmd = 't' then y2 + st.y else y2
      let x1 := if prevCmd = 'Q' || prevCmd = 'q' || prevCmd = 'T' || prevCmd = 't'
                then 2 * st.x - st.prevX1 else st.x
      let y1 := if prevCmd = 'Q' || prevCmd = 'q' || prevCmd = 'T' || prevCmd = 't'
                then 2 * st.y - st.prevY1 else st.y
      let st := maybeReopen prevCmd st
      some ({ st with b := gsk_path_builder_quad_to st.b x1 y1 x2 y2,
                      prevX1 := x1, prevY1 := y1,
                      x := x2, y := y2, cmd := cmd, afterComma := cm }, l2)
  else if cmd = 'A' || cmd = 'a' then
    match parse_nonnegative_number l1 with
    | none => none
    | some (rx, _, l2) =>
      match parse_nonnegative_number l2 with
      | none => none
      | some (ry, _, l3) =>
        match parse_number l3 with
        | none => none
        | some (rot, _, l4) =>
          match parse_flag l4 with
          | none => none
          | some (la, _, l5) =>
            match parse_flag l5 with
            | none => none
            | some (sw, _, l6) =>
              match parse_coordinate_pair l6 with
              | none => none
              | some (x1, y1, cm, l7) =>
                let x1 := if cmd = 'a' then x1 + st.x else x1
                let y1 := if cmd = 'a' then y1 + st.y else y1
                let st := maybeReopen prevCmd st
                some ({ st with b := gsk_path_builder_svg_arc_to st.b rx ry rot la sw x1 y1,
                                x := x1, y := y1, cmd := cmd, afterComma := cm }, l7)
  else if cmd = 'E' || cmd = 'e' then
    match parse_coordinate_pair l1 with
    | none => none
    | some (x1, y1, _, l2) =>
      match parse_coordinate_pair l2 with
      | none => none
      | some (x2, y2, cm, l3) =>
        let x1 := if cmd = 'e' then x1 + st.x else x1
        let y1 := if cmd = 'e' then y1 + st.y else y1
        let x2 := if cmd = 'e' then x2 + st.x else x2
        let y2 := if cmd = 'e' then y2 + st.y else y2
        let st := maybeReopen prevCmd st
        some ({ st with b := gsk_path_builder_arc_to st.b x1 y1 x2 y2,
                        prevX1 := x1, prevY1 := y1,
                        x := x2, y := y2, cmd := cmd, afterComma := cm }, l3)
  else none

/-- The `while (*p)` loop of `gsk_path_parse`, with explicit fuel; every
iteration that does not abort consumes at least one character, so
`length + 1` fuel is enough for any input.  After the loop the pending
`after_comma` error check runs, then the builder is finished. -/
def parseLoop : ℕ → ParseState → List Char → Option GskPathBuilder
  | 0, _, _ => none
  | fuel + 1, st, l =>
    match l with
    | [] => if st.afterComma then none else some st.b
    | _ :: _ =>
      match parseIter st l with
      | none => none
      | some (st2, l2) => parseLoop fuel st2 l2

/-- Model of `gsk_path_parse`: run the parser loop from the initial state;
`none` is the C `NULL` return (the builder is discarded), otherwise the
builder is turned into the finished path. -/
def gsk_path_parse (s : String) : Option (List MContour) :=
  match parseLoop (s.data.length + 1) initParseState s.data with
  | none => none
  | some b => some (gsk_path_builder_free_to_path b)

/-- Big-endian decimal digits of `n`, with explicit fuel (`n` itself is
always enough fuel since a number has at most `n` digits). -/
def natDigitsAux : ℕ → ℕ → List Char
  | 0, _ => []
  | fuel + 1, n => if n = 0 then [] else natDigitsAux fuel (n / 10) ++ [Nat.digitChar (n % 10)]

/-- Decimal digit string of a natural number. -/
def printNat (n : ℕ) : List Char :=
  if n = 0 then ['0'] else natDigitsAux n n

/-- A rational has a finite decimal expansion exactly when its reduced
denominator has only the prime factors 2 and 5; `den ∣ 10 ^ den` is an
equivalent, directly checkable form (every float stored in a C path
satisfies it). -/
def IsDecimal (q : ℚ) : Prop :=
  q.den ∣ 10 ^ q.den

instance (q : ℚ) : Decidable (IsDecimal q) := by
  unfold IsDecimal; infer_instance

/-- The decimal exponent used to print `q`: `q = decMan q / 10 ^ decExp q`. -/
def decExp (q : ℚ) : ℕ := q.den

/-- The decimal mantissa used to print `q` (exact when `IsDecimal q`). -/
def decMan (q : ℚ) : ℤ :=
  q.num * ((10 ^ q.den / q.den : ℕ) : ℤ)

/-- Modelled from the spec: number output of the contour printer — a
deterministic decimal spelling `⟨mantissa⟩e-⟨exponent⟩` that
`g_ascii_strtod` reads back exactly (the C printer uses `g_ascii_dtostr`
with enough digits to reproduce the float exactly). -/
def printNumber (q : ℚ) : List Char :=
  (if q.num < 0 then ['-'] else []) ++
    printNat (decMan q).natAbs ++ 'e' :: '-' :: printNat (decExp q)

/-- Print a coordinate pair. -/
def printPoint (p : GPoint) : List Char :=
  printNumber p.x ++ ' ' :: printNumber p.y

/-- Modelled from the spec: one drawing command as printed by the contour
printer — the command letter followed by its arguments, separated by single
spaces, in absolute coordinates. -/
def printSeg : GSeg → List Char
  | .line p => 'L' :: ' ' :: printPoint p
  | .quad p1 p2 => 'Q' :: ' ' :: (printPoint p1 ++ ' ' :: printPoint p2)
  | .cubic p1 p2 p3 =>
      'C' :: ' ' :: (printPoint p1 ++ ' ' :: (printPoint p2 ++ ' ' :: printPoint p3))
  | .arc p1 p2 => 'E' :: ' ' :: (printPoint p1 ++ ' ' :: printPoint p2)
  | .svgArc rx ry rot la sw p =>
      'A' :: ' ' :: (printNumber rx ++ ' ' :: (printNumber ry ++ ' ' :: (printNumber rot ++
        ' ' :: (if la then '1' else '0') :: ' ' :: (if sw then '1' else '0') :: ' ' :: printPoint p)))

/-- The drawing commands of a contour, each preceded by a single space,
followed by `tail`. -/
def sepSegs (segs : List GSeg) (tail : List Char) : List Char :=
  segs.foldr (fun s acc => ' ' :: (printSeg s ++ acc)) tail

/-- Modelled from the spec: `gsk_contour_print` — `M`, the start point, the
drawing commands, and a final `Z` when the contour is closed; tokens
separated by single spaces, no trailing whitespace. -/
def gsk_contour_print (c : MContour) : List Char :=
  'M' :: ' ' :: (printPoint c.start ++ sepSegs c.segs (if c.closed then [' ', 'Z'] else []))

/-- The second and later contours of `gsk_path_print`, each preceded by the
single separating space the C loop writes. -/
def printPathTail (cs : List MContour) : List Char :=
  cs.foldr (fun c2 acc => ' ' :: (gsk_contour_print c2 ++ acc)) []

/-- Model of `gsk_path_print`: contours in order, separated by one space. -/
def gsk_path_print (cs : List MContour) : List Char :=
  match cs with
  | [] => []
  | c :: rest => gsk_contour_print c ++ printPathTail rest

/-- Model of `gsk_path_to_string`. -/
def gsk_path_to_string (cs : List MContour) : String :=
  ⟨gsk_path_print cs⟩

/-- Coordinates of a point have finite decimal expansions. -/
def pointWF (p : GPoint) : Prop :=
  IsDecimal p.x ∧ IsDecimal p.y

/-- All numbers of a drawing command have finite decimal expansions, and SVG
arc radii are nonnegative (`parse_nonnegative_number` rejects negative
radii; the builder is only ever handed nonnegative ones). -/
def segWF : GSeg → Prop
  | .line p => pointWF p
  | .quad p1 p2 => pointWF p1 ∧ pointWF p2
  | .cubic p1 p2 p3 => pointWF p1 ∧ pointWF p2 ∧ pointWF p3
  | .arc p1 p2 => pointWF p1 ∧ pointWF p2
  | .svgArc rx ry rot _ _ p =>
      0 ≤ rx ∧ 0 ≤ ry ∧ IsDecimal rx ∧ IsDecimal ry ∧ IsDecimal rot ∧ pointWF p

/-- A contour whose numbers all have finite decimal expansions. -/
def contourWF (c : MContour) : Prop :=
  pointWF c.start ∧ ∀ s ∈ c.segs, segWF s

/-- A path whose numbers all have finite decimal expansions — the
float-valued paths of the C implementation all satisfy this. -/
def pathWF (cs : List MContour) : Prop :=
  ∀ c ∈ cs, contourWF c

instance (p : GPoint) : Decidable (pointWF p) := by
  unfold pointWF; infer_instance

instance : DecidablePred segWF := fun s => by
  cases s <;> simp only [segWF] <;> infer_instance

instance (c : MContour) : Decidable (contourWF c) := by
  unfold contourWF; infer_instance

instance : DecidablePred pathWF := fun cs => by
  unfold pathWF; infer_instance

/-- Drop one leading space, if present. -/
def restAfter (l : List Char) : List Char :=
  match l with
  | [] => []
  | c :: r => if c = ' ' then r else c :: r

/-- Text that may legally follow a printed number: nothing, or a single
space followed by a token that is neither whitespace nor a comma. -/
def GoodRest (l : List Char) : Prop :=
  l = [] ∨ ∃ c r, l = ' ' :: c :: r ∧ isSpaceC c = false ∧ c ≠ ','

/-- No leading digit (so a preceding number cannot absorb it). -/
def HeadNotDigit (l : List Char) : Prop :=
  ∀ c r, l = c :: r → c.isDigit = false

/-- Number of parser-loop iterations a printed contour takes: one for `M`,
one per drawing command, one for the final `Z` when closed. -/
def contourIters (c : MContour) : ℕ :=
  1 + c.segs.length + (if c.closed then 1 else 0)

/-- Number of parser-loop iterations a printed path takes. -/
def pathIters (cs : List MContour) : ℕ :=
  (cs.map contourIters).sum

/-- What remains of `ctail` after a printed contour is parsed: a closed
contour ends with `Z` and leaves `ctail` untouched, an open contour's last
number absorbs the leading separator space of `ctail`. -/
def contourRest (c : MContour) (ctail : List Char) : List Char :=
  if c.closed then ctail else restAfter ctail

/-- Text that may follow a printed contour: nothing, or a space and the next
contour (which always starts with `M`). -/
def GoodCTail (l : List Char) : Prop :=
  l = [] ∨ ∃ r, l = ' ' :: 'M' :: r

theorem bboxSubset_refl (a : GskBoundingBox) : bboxSubset a a := by
  simp [bboxSubset]

theorem bboxSubset_trans {a b c : GskBoundingBox} (h1 : bboxSubset a b)
    (h2 : bboxSubset b c) : bboxSubset a c := by
  obtain ⟨x1, y1, X1, Y1⟩ := h1
  obtain ⟨x2, y2, X2, Y2⟩ := h2
  exact ⟨le_trans x2 x1, le_trans y2 y1, le_trans X1 X2, le_trans Y1 Y2⟩

theorem bboxSubset_union_left (a b : GskBoundingBox) :
    bboxSubset a (gsk_bounding_box_union a b) := by
  simp [bboxSubset, gsk_bounding_box_union, min_le_left, le_max_left]

theorem bboxSubset_union_right (a b : GskBoundingBox) :
    bboxSubset b (gsk_bounding_box_union a b) := by
  simp [bboxSubset, gsk_bounding_box_union, min_le_right, le_max_right]

theorem bboxSubset_foldl_seed (l : List GskContour) (seed : GskBoundingBox) :
    bboxSubset seed (l.foldl (fun b c2 => gsk_bounding_box_union b c2.bounds) seed) := by
  induction l generalizing seed with
  | nil => exact bboxSubset_refl seed
  | cons c cs ih =>
    exact bboxSubset_trans (bboxSubset_union_left seed c.bounds)
      (ih (gsk_bounding_box_union seed c.bounds))

theorem bboxSubset_foldl_mem (l : List GskContour) (seed : GskBoundingBox)
    (c : GskContour) (hc : c ∈ l) :
    bboxSubset c.bounds (l.foldl (fun b c2 => gsk_bounding_box_union b c2.bounds) seed) := by
  induction l generalizing seed with
  | nil => cases hc
  | cons d ds ih =>
    rcases List.mem_cons.mp hc with h | h
    · subst h
      exact bboxSubset_trans (bboxSubset_union_right seed c.bounds)
        (bboxSubset_foldl_seed ds (gsk_bounding_box_union seed c.bounds))
    · exact ih (gsk_bounding_box_union seed d.bounds) h

theorem flags_foldl (cs : List GskContour) (b1 b2 : Bool) :
    cs.foldl
      (fun f c => GskPathFlags.mk (f.closed && (gsk_contour_get_flags c).closed)
        (f.flat && (gsk_contour_get_flags c).flat))
      ⟨b1, b2⟩
    = ⟨b1 && cs.all (fun c => c.closed), b2 && cs.all (fun c => c.flat)⟩ := by
  induction cs generalizing b1 b2 with
  | nil => simp
  | cons c cs ih =>
    rw [List.foldl_cons, ih]
    simp [List.all_cons, gsk_contour_get_flags, Bool.and_assoc]

/-- C1: `gsk_path_in_fill` sums the winding contributions of all contours in
contour order; the EVEN_ODD rule holds exactly when that sum is odd, the
WINDING rule exactly when it is nonzero. -/
theorem in_fill_winding_sum (p : GskPath) (pt : GPoint) :
    contourWindingSum p pt = (p.contours.map (fun c => c.winding pt)).sum ∧
    (gsk_path_in_fill p pt .evenOdd = true ↔ Odd (contourWindingSum p pt)) ∧
    (gsk_path_in_fill p pt .winding = true ↔ contourWindingSum p pt ≠ 0) := by
  refine ⟨rfl, ?_, ?_⟩
  · simp only [gsk_path_in_fill, decide_eq_true_eq, Int.odd_iff]
    omega
  · simp [gsk_path_in_fill]

/-- C5: `gsk_path_is_closed` holds exactly when the path consists of a single
contour whose CLOSED flag is set; an empty path is not closed, and a path of
two or more contours is not closed even when every contour is closed. -/
theorem is_closed_single_contour (p : GskPath) :
    (gsk_path_is_closed p = true ↔
      ∃ c, p.contours = [c] ∧ (gsk_contour_get_flags c).closed = true) ∧
    (p.contours = [] → gsk_path_is_closed p = false) ∧
    (2 ≤ p.contours.length → gsk_path_is_closed p = false) := by
  refine ⟨?_, ?_, ?_⟩
  · match h : p.contours with
    | [] => simp [gsk_path_is_closed, h]
    | [c] => simp [gsk_path_is_closed, h]
    | c :: d :: cs => simp [gsk_path_is_closed, h]
  · intro h
    simp [gsk_path_is_closed, h]
  · intro h
    match hc : p.contours with
    | [] => simp [gsk_path_is_closed, hc]
    | [c] => rw [hc] at h; simp at h
    | c :: d :: cs => simp [gsk_path_is_closed, hc]

/-- C6: a path built from a contour list carries as flags the bitwise AND of
the contours' CLOSED and FLAT flags (so each bit is set exactly when every
contour has it), and the path built from zero contours has both flags set. -/
theorem new_from_contours_flags (cs : List GskContour) :
    gsk_path_get_flags (gsk_path_new_from_contours cs)
      = ⟨cs.all (fun c => c.closed), cs.all (fun c => c.flat)⟩ ∧
    gsk_path_get_flags (gsk_path_new_from_contours []) = ⟨true, true⟩ := by
  constructor
  · simp [gsk_path_get_flags, gsk_path_new_from_contours, flags_foldl]
  · rfl

/-- C7: `gsk_path_get_bounds` returns `FALSE` with the zero rectangle exactly
for a path with no contours; any path with at least one contour gets `TRUE`
together with the rectangle of the accumulated union of all per-contour
bounding boxes, a box containing every contour's box (it may have zero
area), so an empty path is distinguished from a degenerate one-point path by
the boolean. -/
theorem get_bounds_union (p : GskPath) :
    ((gsk_path_get_bounds p).1 = false ↔ p.contours = []) ∧
    (p.contours = [] → (gsk_path_get_bounds p).2 = graphene_rect_zero) ∧
    (∀ c cs, p.contours = c :: cs →
      gsk_path_get_bounds p
        = (true, gsk_bounding_box_to_rect
            (cs.foldl (fun b c2 => gsk_bounding_box_union b c2.bounds) c.bounds)) ∧
      ∀ c2 ∈ p.contours,
        bboxSubset c2.bounds
          (cs.foldl (fun b c2 => gsk_bounding_box_union b c2.bounds) c.bounds)) := by
  refine ⟨?_, ?_, ?_⟩
  · match h : p.contours with
    | [] => simp [gsk_path_get_bounds, h]
    | c :: cs => simp [gsk_path_get_bounds, h]
  · intro h
    simp [gsk_path_get_bounds, h]
  · intro c cs h
    constructor
    · simp [gsk_path_get_bounds, h]
    · intro c2 hc2
      rw [h] at hc2
      rcases List.mem_cons.mp hc2 with h2 | h2
      · subst h2
        exact bboxSubset_foldl_seed cs c2.bounds
      · exact bboxSubset_foldl_mem cs c.bounds c2 h2

/-- C8: the start and end points are absent exactly for an empty path; a
nonempty path starts at contour 0, operation index 1 (the implicit initial
move occupies index 0), parameter 0, and ends at the last contour, its last
operation index, parameter 1. -/
theorem start_end_point_spec (p : GskPath) :
    (gsk_path_get_start_point p = none ↔ p.contours = []) ∧
    (gsk_path_get_end_point p = none ↔ p.contours = []) ∧
    (p.contours ≠ [] → gsk_path_get_start_point p = some ⟨0, 1, 0⟩) ∧
    (∀ c, p.contours.getLast? = some c →
      gsk_path_get_end_point p = some ⟨p.contours.length - 1, c.nOps - 1, 1⟩) := by
  refine ⟨?_, ?_, ?_, ?_⟩
  · match h : p.contours with
    | [] => simp [gsk_path_get_start_point, h]
    | c :: cs => simp [gsk_path_get_start_point, h]
  · match h : p.contours with
    | [] => simp [gsk_path_get_end_point, h]
    | c :: cs =>
      have : p.contours.getLast? ≠ none := by
        rw [h]
        simp [List.getLast?_eq_none_iff]
      simp only [gsk_path_get_end_point]
      match hl : p.contours.getLast? with
      | none => exact absurd hl this
      | some d => simp [h]
  · intro h
    match hc : p.contours with
    | [] => exact absurd hc h
    | c :: cs => simp [gsk_path_get_start_point, hc]
  · intro c h
    simp [gsk_path_get_end_point, h]


theorem equal_eq_true_iff (p q : GskRealPathPoint) :
    gsk_path_point_equal p q = true ↔
      (p.contour = q.contour ∧
        ((p.idx = q.idx ∧ p.t = q.t) ∨
         (p.idx + 1 = q.idx ∧ p.t = 1 ∧ q.t = 0) ∨
         (p.idx = q.idx + 1 ∧ p.t = 0 ∧ q.t = 1))) := by
  unfold gsk_path_point_equal
  split_ifs with hc hcond
  · exact iff_of_true rfl ⟨hc, hcond⟩
  · refine iff_of_false (by simp) ?_
    rintro ⟨-, h⟩
    exact hcond h
  · refine iff_of_false (by simp) ?_
    rintro ⟨h, -⟩
    exact hc h

theorem equal_true_symm (p q : GskRealPathPoint)
    (h : gsk_path_point_equal p q = true) : gsk_path_point_equal q p = true := by
  obtain ⟨hc, hcond⟩ := (equal_eq_true_iff p q).mp h
  apply (equal_eq_true_iff q p).mpr
  refine ⟨hc.symm, ?_⟩
  rcases hcond with ⟨h1, h2⟩ | ⟨h1, h2, h3⟩ | ⟨h1, h2, h3⟩
  · exact Or.inl ⟨h1.symm, h2.symm⟩
  · exact Or.inr (Or.inr ⟨h1.symm, h3, h2⟩)
  · exact Or.inr (Or.inl ⟨h1.symm, h3, h2⟩)

theorem gsk_path_point_equal_symm (p q : GskRealPathPoint) :
    gsk_path_point_equal p q = gsk_path_point_equal q p := by
  cases hpq : gsk_path_point_equal p q <;> cases hqp : gsk_path_point_equal q p <;> try rfl
  · exact absurd (equal_true_symm q p hqp) (by simp [hpq])
  · exact absurd (equal_true_symm p q hpq) (by simp [hqp])

theorem equal_iff_pos (p q : GskRealPathPoint)
    (hp0 : 0 ≤ p.t) (hp1 : p.t ≤ 1) (hq0 : 0 ≤ q.t) (hq1 : q.t ≤ 1) :
    gsk_path_point_equal p q = true ↔
      (p.contour = q.contour ∧ pointPos p = pointPos q) := by
  rw [equal_eq_true_iff]
  constructor
  · rintro ⟨hc, hcond⟩
    refine ⟨hc, ?_⟩
    rcases hcond with ⟨hi, ht⟩ | ⟨hi, ht1, ht2⟩ | ⟨hi, ht1, ht2⟩
    · simp [pointPos, hi, ht]
    · simp only [pointPos, ht1, ht2, ← hi]
      push_cast
      ring
    · simp only [pointPos, ht1, ht2, hi]
      push_cast
      ring
  · rintro ⟨hc, hpos⟩
    refine ⟨hc, ?_⟩
    have hpos' : (p.idx : ℚ) + p.t = (q.idx : ℚ) + q.t := hpos
    rcases Nat.lt_trichotomy p.idx q.idx with hi | hi | hi
    · have h1 : (p.idx : ℚ) + 1 ≤ (q.idx : ℚ) := by exact_mod_cast hi
      have ht1 : p.t = 1 := by linarith
      have ht2 : q.t = 0 := by linarith
      have hqc : (q.idx : ℚ) = (p.idx : ℚ) + 1 := by linarith
      have hqn : q.idx = p.idx + 1 := by exact_mod_cast hqc
      exact Or.inr (Or.inl ⟨hqn.symm, ht1, ht2⟩)
    · have hcast : (p.idx : ℚ) = (q.idx : ℚ) := by exact_mod_cast hi
      have ht : p.t = q.t := by linarith
      exact Or.inl ⟨hi, ht⟩
    · have h1 : (q.idx : ℚ) + 1 ≤ (p.idx : ℚ) := by exact_mod_cast hi
      have ht1 : q.t = 1 := by linarith
      have ht2 : p.t = 0 := by linarith
      have hpc : (p.idx : ℚ) = (q.idx : ℚ) + 1 := by linarith
      have hpn : p.idx = q.idx + 1 := by exact_mod_cast hpc
      exact Or.inr (Or.inr ⟨hpn, ht2, ht1⟩)

theorem compare_eq_key (p q : GskRealPathPoint)
    (hp0 : 0 ≤ p.t) (hp1 : p.t ≤ 1) (hq0 : 0 ≤ q.t) (hq1 : q.t ≤ 1) :
    gsk_path_point_compare p q =
      (if p.contour < q.contour then -1
       else if q.contour < p.contour then 1
       else if pointPos p < pointPos q then -1
       else if pointPos q < pointPos p then 1
       else 0) := by
  by_cases heq : gsk_path_point_equal p q = true
  · obtain ⟨hc, hpos⟩ := (equal_iff_pos p q hp0 hp1 hq0 hq1).mp heq
    simp [gsk_path_point_compare, heq, hc, hpos]
  · have heq' : gsk_path_point_equal p q = false := by
      revert heq
      cases gsk_path_point_equal p q <;> simp
    simp only [gsk_path_point_compare, heq', Bool.false_eq_true, if_false]
    rcases Nat.lt_trichotomy p.contour q.contour with hc | hc | hc
    · simp [hc]
    · have h1 : ¬ p.contour < q.contour := by omega
      have h2 : ¬ q.contour < p.contour := by omega
      simp only [h1, h2, if_false]
      rcases Nat.lt_trichotomy p.idx q.idx with hi | hi | hi
      · have hle : pointPos p ≤ pointPos q := by
          have hcast : (p.idx : ℚ) + 1 ≤ (q.idx : ℚ) := by exact_mod_cast hi
          simp only [pointPos]
          linarith
        have hne : pointPos p ≠ pointPos q := by
          intro h
          exact heq ((equal_iff_pos p q hp0 hp1 hq0 hq1).mpr ⟨hc, h⟩)
        have hlt : pointPos p < pointPos q := lt_of_le_of_ne hle hne
        simp [hi, hlt]
      · have h3 : ¬ p.idx < q.idx := by omega
        have h4 : ¬ q.idx < p.idx := by omega
        have hcast : (p.idx : ℚ) = (q.idx : ℚ) := by exact_mod_cast hi
        simp only [h3, h4, if_false]
        rcases lt_trichotomy p.t q.t with ht | ht | ht
        · have hpq : pointPos p < pointPos q := by
            simp only [pointPos, hcast]
            linarith
          simp [ht, hpq]
        · exfalso
          apply heq
          rw [equal_eq_true_iff]
          exact ⟨hc, Or.inl ⟨hi, ht⟩⟩
        · have h5 : ¬ p.t < q.t := by linarith
          have h6 : ¬ pointPos p < pointPos q := by
            simp only [pointPos, hcast, not_lt]
            linarith
          have h7 : pointPos q < pointPos p := by
            simp only [pointPos, hcast]
            linarith
          simp [h5, ht, h6, h7]
      · have hle : pointPos q ≤ pointPos p := by
          have hcast : (q.idx : ℚ) + 1 ≤ (p.idx : ℚ) := by exact_mod_cast hi
          simp only [pointPos]
          linarith
        have hne : pointPos q ≠ pointPos p := by
          intro h
          exact heq ((equal_iff_pos p q hp0 hp1 hq0 hq1).mpr ⟨hc, h.symm⟩)
        have hlt : pointPos q < pointPos p := lt_of_le_of_ne hle hne
        have h3 : ¬ p.idx < q.idx := by omega
        have h4 : ¬ pointPos p < pointPos q := not_lt.mpr (le_of_lt hlt)
        simp [h3, hi, h4, hlt]
    · have h1 : ¬ p.contour < q.contour := by omega
      simp [h1, hc]

theorem compare_le_iff (p q : GskRealPathPoint)
    (hp0 : 0 ≤ p.t) (hp1 : p.t ≤ 1) (hq0 : 0 ≤ q.t) (hq1 : q.t ≤ 1) :
    gsk_path_point_compare p q ≤ 0 ↔
      (p.contour < q.contour ∨
        (p.contour = q.contour ∧ pointPos p ≤ pointPos q)) := by
  rw [compare_eq_key p q hp0 hp1 hq0 hq1]
  split_ifs with h1 h2 h3 h4
  · simp [h1]
  · refine iff_of_false (by norm_num) ?_
    rintro (h | ⟨h, -⟩)
    · exact h1 h
    · omega
  · have hc : p.contour = q.contour := by omega
    exact iff_of_true (by norm_num) (Or.inr ⟨hc, le_of_lt h3⟩)
  · refine iff_of_false (by norm_num) ?_
    rintro (h | ⟨-, h⟩)
    · exact h1 h
    · exact (not_le.mpr h4) h
  · have hc : p.contour = q.contour := by omega
    have hpos : pointPos p ≤ pointPos q := not_lt.mp h4
    exact iff_of_true le_rfl (Or.inr ⟨hc, hpos⟩)

theorem compare_eq_zero_iff_equal (p q : GskRealPathPoint) :
    gsk_path_point_compare p q = 0 ↔ gsk_path_point_equal p q = true := by
  constructor
  · intro h
    by_cases heq : gsk_path_point_equal p q = true
    · exact heq
    · exfalso
      simp only [gsk_path_point_compare, heq, if_false] at h
      by_cases h1 : p.contour < q.contour
      · simp [h1] at h
      · by_cases h2 : q.contour < p.contour
        · simp [h1, h2] at h
        · by_cases h3 : p.idx < q.idx
          · simp [h1, h2, h3] at h
          · by_cases h4 : q.idx < p.idx
            · simp [h1, h2, h3, h4] at h
            · by_cases h5 : p.t < q.t
              · simp [h1, h2, h3, h4, h5] at h
              · by_cases h6 : q.t < p.t
                · simp [h1, h2, h3, h4, h5, h6] at h
                · apply heq
                  rw [equal_eq_true_iff]
                  exact ⟨by omega, Or.inl ⟨by omega, le_antisymm (not_lt.mp h6) (not_lt.mp h5)⟩⟩
  · intro h
    simp [gsk_path_point_compare, h]

theorem compare_neg_one_iff (p q : GskRealPathPoint)
    (heq : gsk_path_point_equal p q = false) :
    gsk_path_point_compare p q = -1 ↔ pointLexLt p q := by
  simp only [gsk_path_point_compare, heq, Bool.false_eq_true, if_false]
  split_ifs with h1 h2 h3 h4 h5 h6
  · exact iff_of_true rfl (Or.inl h1)
  · refine iff_of_false (by norm_num) ?_
    rintro (h | ⟨h, -⟩)
    · exact h1 h
    · omega
  · exact iff_of_true rfl (Or.inr ⟨by omega, Or.inl h3⟩)
  · refine iff_of_false (by norm_num) ?_
    rintro (h | ⟨-, h | ⟨h, -⟩⟩)
    · exact h1 h
    · exact h3 h
    · omega
  · exact iff_of_true rfl (Or.inr ⟨by omega, Or.inr ⟨by omega, h5⟩⟩)
  · refine iff_of_false (by norm_num) ?_
    rintro (h | ⟨-, h | ⟨-, h⟩⟩)
    · exact h1 h
    · exact h3 h
    · exact h5 h
  · refine iff_of_false (by norm_num) ?_
    rintro (h | ⟨-, h | ⟨-, h⟩⟩)
    · exact h1 h
    · exact h3 h
    · exact h5 h

theorem compare_one_iff (p q : GskRealPathPoint)
    (heq : gsk_path_point_equal p q = false) :
    gsk_path_point_compare p q = 1 ↔ pointLexLt q p := by
  simp only [gsk_path_point_compare, heq, Bool.false_eq_true, if_false]
  split_ifs with h1 h2 h3 h4 h5 h6
  · refine iff_of_false (by norm_num) ?_
    rintro (h | ⟨h, -⟩)
    · omega
    · omega
  · exact iff_of_true rfl (Or.inl h2)
  · refine iff_of_false (by norm_num) ?_
    rintro (h | ⟨-, h | ⟨h, -⟩⟩)
    · exact h2 h
    · omega
    · omega
  · exact iff_of_true rfl (Or.inr ⟨by omega, Or.inl h4⟩)
  · refine iff_of_false (by norm_num) ?_
    rintro (h | ⟨-, h | ⟨-, h⟩⟩)
    · exact h2 h
    · exact h4 h
    · exact absurd h5 (asymm h)
  · exact iff_of_true rfl (Or.inr ⟨by omega, Or.inr ⟨by omega, h6⟩⟩)
  · refine iff_of_false (by norm_num) ?_
    rintro (h | ⟨-, h | ⟨-, h⟩⟩)
    · exact h2 h
    · exact h4 h
    · exact h6 h

/-- C4: two locations are equal exactly when their `(contour, idx, t)` triples
match or they are the two canonical spellings `(i, s, 1)` and `(i, s + 1, 0)`
of one segment boundary; the comparison returns 0 exactly for equal
locations and otherwise orders by `(contour, idx, t)` lexicographically, and
for parameters within `[0, 1]` it is transitive, hence a total order. -/
theorem point_order_spec (p q r : GskRealPathPoint)
    (hp0 : 0 ≤ p.t) (hp1 : p.t ≤ 1) (hq0 : 0 ≤ q.t) (hq1 : q.t ≤ 1)
    (hr0 : 0 ≤ r.t) (hr1 : r.t ≤ 1) :
    (gsk_path_point_equal p q = true ↔
      (p.contour = q.contour ∧
        ((p.idx = q.idx ∧ p.t = q.t) ∨
         (p.idx + 1 = q.idx ∧ p.t = 1 ∧ q.t = 0) ∨
         (p.idx = q.idx + 1 ∧ p.t = 0 ∧ q.t = 1)))) ∧
    (gsk_path_point_compare p q = 0 ↔ gsk_path_point_equal p q = true) ∧
    (gsk_path_point_equal p q = false →
      (gsk_path_point_compare p q = -1 ↔ pointLexLt p q) ∧
      (gsk_path_point_compare p q = 1 ↔ pointLexLt q p)) ∧
    (gsk_path_point_compare p q ≤ 0 → gsk_path_point_compare q r ≤ 0 →
      gsk_path_point_compare p r ≤ 0) := by
  refine ⟨equal_eq_true_iff p q, compare_eq_zero_iff_equal p q, ?_, ?_⟩
  · intro heq
    exact ⟨compare_neg_one_iff p q heq, compare_one_iff p q heq⟩
  · intro hpq hqr
    rw [compare_le_iff p q hp0 hp1 hq0 hq1] at hpq
    rw [compare_le_iff q r hq0 hq1 hr0 hr1] at hqr
    rw [compare_le_iff p r hp0 hp1 hr0 hr1]
    rcases hpq with h | ⟨hc1, hpos1⟩ <;> rcases hqr with h' | ⟨hc2, hpos2⟩
    · exact Or.inl (lt_trans h h')
    · exact Or.inl (by omega)
    · exact Or.inl (by omega)
    · exact Or.inr ⟨hc1.trans hc2, le_trans hpos1 hpos2⟩

/-- C4 witness: evaluated at the boundary pair `(0, 0, 1)`, `(0, 1, 0)` and a
third location in another contour. -/
theorem point_order_spec_witness :
    gsk_path_point_equal ⟨0, 0, 1⟩ ⟨0, 1, 0⟩ = true ∧
    gsk_path_point_compare ⟨0, 0, 1⟩ ⟨0, 1, 0⟩ = 0 := by
  have h := point_order_spec ⟨0, 0, 1⟩ ⟨0, 1, 0⟩ ⟨1, 0, 0⟩
    (by norm_num) (by norm_num) (by norm_num) (by norm_num) (by norm_num) (by norm_num)
  have he : gsk_path_point_equal ⟨0, 0, 1⟩ ⟨0, 1, 0⟩ = true :=
    h.1.mpr ⟨rfl, Or.inr (Or.inl ⟨rfl, rfl, rfl⟩)⟩
  exact ⟨he, h.2.1.mpr he⟩

/-- C10: the comparison returns 0 exactly for equal locations, it is
antisymmetric (`compare p q = -compare q p`), and locations in different
contours are never equal. -/
theorem point_compare_consistency (p q : GskRealPathPoint) :
    (gsk_path_point_compare p q = 0 ↔ gsk_path_point_equal p q = true) ∧
    gsk_path_point_compare p q = -gsk_path_point_compare q p ∧
    (p.contour ≠ q.contour → gsk_path_point_equal p q = false) := by
  refine ⟨compare_eq_zero_iff_equal p q, ?_, ?_⟩
  · by_cases heq : gsk_path_point_equal p q = true
    · have heq2 := equal_true_symm p q heq
      simp [gsk_path_point_compare, heq, heq2]
    · have heqF : gsk_path_point_equal p q = false := by
        revert heq
        cases gsk_path_point_equal p q <;> simp
      have heq2F : gsk_path_point_equal q p = false := by
        rw [← gsk_path_point_equal_symm]
        exact heqF
      simp only [gsk_path_point_compare, heqF, heq2F, Bool.false_eq_true, if_false]
      rcases Nat.lt_trichotomy p.contour q.contour with hc | hc | hc
      · simp [hc, Nat.lt_asymm hc]
      · have h1 : ¬ p.contour < q.contour := by omega
        have h2 : ¬ q.contour < p.contour := by omega
        simp only [h1, h2, if_false]
        rcases Nat.lt_trichotomy p.idx q.idx with hi | hi | hi
        · simp [hi, Nat.lt_asymm hi]
        · have h3 : ¬ p.idx < q.idx := by omega
          have h4 : ¬ q.idx < p.idx := by omega
          simp only [h3, h4, if_false]
          rcases lt_trichotomy p.t q.t with ht | ht | ht
          · simp [ht, lt_asymm ht]
          · exfalso
            apply heq
            rw [equal_eq_true_iff]
            exact ⟨by omega, Or.inl ⟨by omega, ht⟩⟩
          · have h5 : ¬ p.t < q.t := lt_asymm ht
            simp [h5, ht]
        · have h3 : ¬ p.idx < q.idx := by omega
          simp [h3, hi]
      · have h1 : ¬ p.contour < q.contour := by omega
        simp [h1, hc]
  · intro hne
    cases h : gsk_path_point_equal p q
    · rfl
    · exact absurd ((equal_eq_true_iff p q).mp h).1 hne

theorem sw_cons_not {c : Char} (h : isSpaceC c = false) (l : List Char) :
    skip_whitespace (c :: l) = c :: l := by
  simp [skip_whitespace, h]

theorem sw_space (l : List Char) : skip_whitespace (' ' :: l) = skip_whitespace l := by
  simp [skip_whitespace, isSpaceC]

theorem digitChar_spec : ∀ m, m < 10 →
    (Nat.digitChar m).isDigit = true ∧ digitVal (Nat.digitChar m) = m := by
  decide

theorem digit_facts (c : Char) (h : c.isDigit = true) :
    isSpaceC c = false ∧ c ≠ ',' ∧ c ≠ '-' ∧ c ≠ '+' ∧ c ≠ '.' ∧
      c ≠ 'e' ∧ c ≠ 'E' ∧ c ≠ ' ' := by
  refine ⟨?_, ?_, ?_, ?_, ?_, ?_, ?_, ?_⟩
  · cases hc : isSpaceC c
    · rfl
    · exfalso
      simp only [isSpaceC, Bool.or_eq_true, decide_eq_true_eq] at hc
      rcases hc with ((((h1 | h1) | h1) | h1) | h1) | h1 <;> subst h1 <;>
        exact absurd h (by decide)
  all_goals intro he; subst he; exact absurd h (by decide)

theorem readDigits_stop (l : List Char) (h : HeadNotDigit l) (acc : ℕ) :
    readDigits l acc = (acc, 0, l) := by
  match l with
  | [] => rfl
  | c :: r => simp [readDigits, h c r rfl]

theorem readDigits_append (ds : List Char) (rest : List Char) (acc : ℕ)
    (hds : ∀ c ∈ ds, c.isDigit = true) (hrest : HeadNotDigit rest) :
    readDigits (ds ++ rest) acc
      = (ds.foldl (fun a c => 10 * a + digitVal c) acc, ds.length, rest) := by
  induction ds generalizing acc with
  | nil => simpa using readDigits_stop rest hrest acc
  | cons d ds ih =>
    have hd : d.isDigit = true := hds d (List.mem_cons_self d ds)
    have ih2 := ih (10 * acc + digitVal d) (fun c hc => hds c (List.mem_cons_of_mem d hc))
    simp [readDigits, hd, ih2]

theorem natDigitsAux_digits : ∀ fuel n : ℕ, ∀ c ∈ natDigitsAux fuel n, c.isDigit = true := by
  intro fuel
  induction fuel with
  | zero => intro n c hc; cases hc
  | succ fuel ih =>
    intro n c hc
    simp only [natDigitsAux] at hc
    by_cases hn : n = 0
    · simp [hn] at hc
    · rw [if_neg hn] at hc
      rcases List.mem_append.mp hc with h1 | h1
      · exact ih (n / 10) c h1
      · have : c = Nat.digitChar (n % 10) := by simpa using h1
        subst this
        exact (digitChar_spec (n % 10) (Nat.mod_lt n (by norm_num))).1

theorem natDigitsAux_foldl : ∀ fuel n acc : ℕ, n < 10 ^ fuel →
    (natDigitsAux fuel n).foldl (fun a c => 10 * a + digitVal c) acc
      = acc * 10 ^ (natDigitsAux fuel n).length + n := by
  intro fuel
  induction fuel with
  | zero =>
    intro n acc h
    have : n = 0 := by simpa using h
    subst this
    simp [natDigitsAux]
  | succ fuel ih =>
    intro n acc h
    by_cases hn : n = 0
    · subst hn
      simp [natDigitsAux]
    · have hdiv : n / 10 < 10 ^ fuel := by
        rw [Nat.div_lt_iff_lt_mul (by norm_num)]
        calc n < 10 ^ (fuel + 1) := h
        _ = 10 ^ fuel * 10 := by ring
      simp only [natDigitsAux, if_neg hn, List.foldl_append, List.length_append,
        List.foldl_cons, List.foldl_nil, List.length_cons, List.length_nil]
      rw [ih (n / 10) acc hdiv]
      rw [(digitChar_spec (n % 10) (Nat.mod_lt n (by omega))).2]
      have : 10 * (acc * 10 ^ (natDigitsAux fuel (n / 10)).length + n / 10) + n % 10
          = acc * 10 ^ ((natDigitsAux fuel (n / 10)).length + 1) + (10 * (n / 10) + n % 10) := by
        ring
      rw [this, Nat.div_add_mod]

theorem natDigitsAux_ne_nil (fuel n : ℕ) (hf : 0 < fuel) (hn : 0 < n) :
    natDigitsAux fuel n ≠ [] := by
  match fuel with
  | f + 1 =>
    simp only [natDigitsAux, if_neg (Nat.pos_iff_ne_zero.mp hn)]
    simp

theorem printNat_digits (n : ℕ) : ∀ c ∈ printNat n, c.isDigit = true := by
  intro c hc
  by_cases hn : n = 0
  · subst hn
    simp only [printNat, if_pos rfl] at hc
    have : c = '0' := by simpa using hc
    subst this
    decide
  · rw [printNat, if_neg hn] at hc
    exact natDigitsAux_digits n n c hc

theorem printNat_ne_nil (n : ℕ) : printNat n ≠ [] := by
  by_cases hn : n = 0
  · subst hn; simp [printNat]
  · rw [printNat, if_neg hn]
    exact natDigitsAux_ne_nil n n (by omega) (by omega)

theorem printNat_foldl (n : ℕ) :
    (printNat n).foldl (fun a c => 10 * a + digitVal c) 0 = n := by
  by_cases hn : n = 0
  · subst hn; rfl
  · rw [printNat, if_neg hn]
    have h10 : n < 10 ^ n := Nat.lt_pow_self (by norm_num) n
    rw [natDigitsAux_foldl n n 0 h10]
    ring

theorem printNat_head (n : ℕ) :
    ∃ c t, printNat n = c :: t ∧ c.isDigit = true := by
  match h : printNat n with
  | [] => exact absurd h (printNat_ne_nil n)
  | c :: t =>
    exact ⟨c, t, rfl, printNat_digits n c (h ▸ List.mem_cons_self c t)⟩

theorem headIs_cons (a c : Char) (l : List Char) :
    headIs a (c :: l) = decide (c = a) := rfl

theorem decD_pos (q : ℚ) (h : IsDecimal q) : 0 < 10 ^ q.den / q.den :=
  Nat.div_pos (Nat.le_of_dvd (by positivity) h) (Nat.pos_of_ne_zero q.den_nz)

theorem decMan_val (q : ℚ) (h : IsDecimal q) :
    (decMan q : ℚ) * (10 : ℚ) ^ (-(q.den : ℤ)) = q := by
  have hD : (10 ^ q.den / q.den) * q.den = 10 ^ q.den := Nat.div_mul_cancel h
  have hden : ((q.den : ℚ)) ≠ 0 := Nat.cast_ne_zero.mpr q.den_nz
  have hq : (q.num : ℚ) = q * q.den := by
    have hd := Rat.num_div_den q
    rw [div_eq_iff hden] at hd
    exact hd
  have h1 : ((10 ^ q.den / q.den : ℕ) : ℚ) * (q.den : ℚ) = (10 : ℚ) ^ q.den := by
    rw [← Nat.cast_mul, hD]
    push_cast
    ring
  have h2 : (10 : ℚ) ^ q.den ≠ 0 := pow_ne_zero _ (by norm_num)
  have key : (decMan q : ℚ) = q * (10 : ℚ) ^ q.den := by
    rw [decMan, Int.cast_mul, Int.cast_natCast, hq]
    calc q * (q.den : ℚ) * ((10 ^ q.den / q.den : ℕ) : ℚ)
        = q * (((10 ^ q.den / q.den : ℕ) : ℚ) * (q.den : ℚ)) := by ring
      _ = q * (10 : ℚ) ^ q.den := by rw [h1]
  rw [key, zpow_neg, zpow_natCast, mul_assoc, mul_inv_cancel₀ h2, mul_one]

theorem decMan_sign (q : ℚ) (h : IsDecimal q) :
    (if q.num < 0 then (-1 : ℚ) else 1) * (((decMan q).natAbs : ℕ) : ℚ)
      = (decMan q : ℚ) := by
  have hDpos : (0 : ℤ) < ((10 ^ q.den / q.den : ℕ) : ℤ) := by
    exact_mod_cast decD_pos q h
  by_cases hq : q.num < 0
  · have hneg : decMan q < 0 := mul_neg_of_neg_of_pos hq hDpos
    rw [if_pos hq, Int.cast_natAbs, abs_of_neg hneg]
    push_cast
    ring
  · have hpos : 0 ≤ decMan q := mul_nonneg (not_lt.mp hq) (le_of_lt hDpos)
    rw [if_neg hq, Int.cast_natAbs, abs_of_nonneg hpos, one_mul]

theorem print_value (q : ℚ) (hq : IsDecimal q) :
    (if q.num < 0 then (-1 : ℚ) else 1) *
        ((((decMan q).natAbs : ℕ) : ℚ) + ((0 : ℕ) : ℚ) / 10 ^ (0 : ℕ)) *
        (10 : ℚ) ^ (-(decExp q : ℤ)) = q := by
  have h1 := decMan_sign q hq
  have h2 := decMan_val q hq
  simp only [Nat.cast_zero, pow_zero, zero_div, add_zero, decExp]
  rw [h1, h2]

theorem headNotDigit_e (l : List Char) : HeadNotDigit ('e' :: l) := by
  intro c r h
  injection h with h1 h2
  subst h1
  decide

theorem headNotDigit_space (l : List Char) : HeadNotDigit (' ' :: l) := by
  intro c r h
  injection h with h1 h2
  subst h1
  decide

theorem headNotDigit_nil : HeadNotDigit ([] : List Char) := by
  intro c r h
  cases h

theorem strtodSign_digit (c : Char) (hc : c.isDigit = true) (l : List Char) :
    strtodSign (c :: l) = (false, c :: l) := by
  obtain ⟨-, -, hm, hp, -, -, -, -⟩ := digit_facts c hc
  simp [strtodSign, headIs_cons, hm, hp]

theorem strtodSign_neg (l : List Char) : strtodSign ('-' :: l) = (true, l) := by
  simp [strtodSign, headIs_cons]

theorem strtodFrac_e (l : List Char) : strtodFrac ('e' :: l) = (0, 0, 'e' :: l) := by
  simp [strtodFrac, headIs_cons]

theorem strtodExp_negdigits (K : ℕ) (rest : List Char) (hrest : HeadNotDigit rest) :
    strtodExp ('e' :: '-' :: (printNat K ++ rest)) = (-(K : ℤ), rest) := by
  have hrd : readDigits (printNat K ++ rest) 0 = (K, (printNat K).length, rest) := by
    rw [readDigits_append _ _ 0 (printNat_digits K) hrest, printNat_foldl]
  have hlen : (printNat K).length ≠ 0 := by
    simpa [List.length_eq_zero] using printNat_ne_nil K
  simp [strtodExp, headIs_cons, hrd, hlen]

theorem strtod_print (q : ℚ) (hq : IsDecimal q) (rest : List Char) (hrest : HeadNotDigit rest) :
    g_ascii_strtod (printNumber q ++ rest) = some (q, rest) := by
  obtain ⟨c, t, hds, hcd⟩ := printNat_head (decMan q).natAbs
  obtain ⟨hsp, -, hmin, hplu, -, -, -, -⟩ := digit_facts c hcd
  have hrd1 : readDigits
      (printNat (decMan q).natAbs ++ ('e' :: '-' :: (printNat (decExp q) ++ rest))) 0
      = ((decMan q).natAbs, (printNat (decMan q).natAbs).length,
         'e' :: '-' :: (printNat (decExp q) ++ rest)) := by
    rw [readDigits_append _ _ 0 (printNat_digits _) (headNotDigit_e _), printNat_foldl]
  have hlenM : (printNat (decMan q).natAbs).length ≠ 0 := by
    simpa [List.length_eq_zero] using printNat_ne_nil (decMan q).natAbs
  have hfrac := strtodFrac_e ('-' :: (printNat (decExp q) ++ rest))
  have hexp := strtodExp_negdigits (decExp q) rest hrest
  have hv := print_value q hq
  by_cases hs : q.num < 0
  · have htext : printNumber q ++ rest
        = '-' :: (printNat (decMan q).natAbs ++ ('e' :: '-' :: (printNat (decExp q) ++ rest))) := by
      simp [printNumber, hs, List.append_assoc]
    have hsw : skip_whitespace
        ('-' :: (printNat (decMan q).natAbs ++ ('e' :: '-' :: (printNat (decExp q) ++ rest))))
        = '-' :: (printNat (decMan q).natAbs ++ ('e' :: '-' :: (printNat (decExp q) ++ rest))) :=
      sw_cons_not (by decide) _
    rw [if_pos hs] at hv
    rw [htext]
    simp only [g_ascii_strtod, hsw, strtodSign_neg, hrd1, hfrac, hexp]
    rw [if_neg (by simpa using hlenM)]
    simp only [if_true, Bool.false_eq_true, if_false]
    rw [hv]
  · have htext : printNumber q ++ rest
        = printNat (decMan q).natAbs ++ ('e' :: '-' :: (printNat (decExp q) ++ rest)) := by
      simp [printNumber, hs, List.append_assoc]
    have hsgn : strtodSign
        (printNat (decMan q).natAbs ++ ('e' :: '-' :: (printNat (decExp q) ++ rest)))
        = (false, printNat (decMan q).natAbs ++ ('e' :: '-' :: (printNat (decExp q) ++ rest))) := by
      rw [hds, List.cons_append, strtodSign_digit c hcd]
    have hsw : skip_whitespace
        (printNat (decMan q).natAbs ++ ('e' :: '-' :: (printNat (decExp q) ++ rest)))
        = printNat (decMan q).natAbs ++ ('e' :: '-' :: (printNat (decExp q) ++ rest)) := by
      rw [hds, List.cons_append, sw_cons_not hsp]
    rw [if_neg hs] at hv
    rw [htext]
    simp only [g_ascii_strtod, hsw, hsgn, hrd1, hfrac, hexp]
    rw [if_neg (by simpa using hlenM)]
    simp only [Bool.false_eq_true, if_false]
    rw [hv]

theorem soc_goodRest (rest : List Char) (h : GoodRest rest) :
    skip_optional_comma rest = (false, restAfter rest) := by
  rcases h with h | ⟨c, r, h, hns, hnc⟩
  · subst h; rfl
  · subst h
    simp only [skip_optional_comma, sw_space, sw_cons_not hns, restAfter]
    simp [hnc]

theorem headNotDigit_goodRest (rest : List Char) (h : GoodRest rest) :
    HeadNotDigit rest := by
  rcases h with h | ⟨c, r, h, -, -⟩
  · subst h; exact headNotDigit_nil
  · subst h; exact headNotDigit_space _

theorem parse_number_print (q : ℚ) (hq : IsDecimal q) (rest : List Char) (hgr : GoodRest rest) :
    parse_number (printNumber q ++ rest) = some (q, false, restAfter rest) := by
  simp only [parse_number, strtod_print q hq rest (headNotDigit_goodRest rest hgr),
    soc_goodRest rest hgr]

theorem parse_number_space (l : List Char) : parse_number (' ' :: l) = parse_number l := by
  have h : g_ascii_strtod (' ' :: l) = g_ascii_strtod l := by
    simp only [g_ascii_strtod, sw_space]
  simp only [parse_number, h]

theorem printNumber_head (q : ℚ) :
    ∃ c t, printNumber q = c :: t ∧ isSpaceC c = false ∧ c ≠ ',' := by
  obtain ⟨c, t, hds, hcd⟩ := printNat_head (decMan q).natAbs
  by_cases hs : q.num < 0
  · refine ⟨'-', printNat (decMan q).natAbs ++ 'e' :: '-' :: printNat (decExp q),
      ?_, by decide, by decide⟩
    simp [printNumber, hs]
  · obtain ⟨hsp, hcom, -, -, -, -, -, -⟩ := digit_facts c hcd
    refine ⟨c, t ++ 'e' :: '-' :: printNat (decExp q), ?_, hsp, hcom⟩
    simp [printNumber, hs, hds]

theorem goodRest_printNumber (q : ℚ) (X : List Char) :
    GoodRest (' ' :: (printNumber q ++ X)) := by
  obtain ⟨c, t, h, hns, hnc⟩ := printNumber_head q
  exact Or.inr ⟨c, t ++ X, by rw [h, List.cons_append], hns, hnc⟩

theorem restAfter_space (l : List Char) : restAfter (' ' :: l) = l := by
  simp [restAfter]

theorem parse_pair_print (x y : ℚ) (hx : IsDecimal x) (hy : IsDecimal y)
    (rest : List Char) (hgr : GoodRest rest) :
    parse_coordinate_pair (' ' :: (printPoint ⟨x, y⟩ ++ rest))
      = some (x, y, false, restAfter rest) := by
  have h1 : printPoint ⟨x, y⟩ ++ rest = printNumber x ++ (' ' :: (printNumber y ++ rest)) := by
    simp [printPoint, List.append_assoc]
  have hg1 : GoodRest (' ' :: (printNumber y ++ rest)) := goodRest_printNumber y rest
  simp only [parse_coordinate_pair, parse_coordinate, parse_number_space, h1,
    parse_number_print x hx _ hg1, restAfter_space,
    parse_number_print y hy rest hgr]

theorem parse_flag_print (b : Bool) (rest : List Char) (hgr : GoodRest rest) :
    parse_flag ((if b then '1' else '0') :: rest) = some (b, false, restAfter rest) := by
  cases b
  · simp only [if_neg (by simp : ¬ (false : Bool) = true)]
    simp [parse_flag, sw_cons_not (show isSpaceC '0' = false by decide),
      soc_goodRest rest hgr]
  · simp only [if_pos rfl]
    simp [parse_flag, sw_cons_not (show isSpaceC '1' = false by decide),
      soc_goodRest rest hgr]

theorem parse_command_space (cmd : Char) (l : List Char) :
    parse_command cmd (' ' :: l) = parse_command cmd l := by
  simp only [parse_command, sw_space]

theorem parse_command_letter (cmd c : Char) (l : List Char) (hx : cmd ≠ 'X')
    (hc : allCommandChars.contains c = true) (hns : isSpaceC c = false) :
    parse_command cmd (c :: l) = (false, c, l) := by
  simp only [parse_command, if_neg hx, sw_cons_not hns, hc, if_true, if_pos rfl]

theorem parse_command_M (cmd : Char) (l : List Char) :
    parse_command cmd ('M' :: l) = (false, 'M', l) := by
  by_cases hx : cmd = 'X'
  · simp [parse_command, hx, sw_cons_not (show isSpaceC 'M' = false by decide)]
  · exact parse_command_letter cmd 'M' l hx (by decide) (by decide)

theorem maybeReopen_id (prevCmd : Char) (st : ParseState)
    (h1 : prevCmd ≠ 'z') (h2 : prevCmd ≠ 'Z') : maybeReopen prevCmd st = st := by
  simp [maybeReopen, h1, h2]

theorem parse_pair_space (l : List Char) :
    parse_coordinate_pair (' ' :: l) = parse_coordinate_pair l := by
  simp only [parse_coordinate_pair, parse_coordinate, parse_number_space]

theorem goodRest_printPoint (p : GPoint) (X : List Char) :
    GoodRest (' ' :: (printPoint p ++ X)) := by
  have h : printPoint p ++ X = printNumber p.x ++ (' ' :: (printNumber p.y ++ X)) := by
    simp [printPoint, List.append_assoc]
  rw [h]
  exact goodRest_printNumber p.x _

theorem iter_M (st : ParseState) (p : GPoint) (hwp : pointWF p)
    (rest : List Char) (hgr : GoodRest rest) (hac : st.afterComma = false) :
    ∃ st2, parseIter st ('M' :: ' ' :: (printPoint p ++ rest)) = some (st2, restAfter rest) ∧
      st2.b = gsk_path_builder_move_to st.b p ∧ st2.cmd = 'M' ∧ st2.afterComma = false := by
  have hpair := parse_pair_print p.x p.y hwp.1 hwp.2 rest hgr
  simp [parseIter, parse_command_M, hac, hpair]
  split_ifs
  · exact ⟨_, rfl, rfl, rfl, rfl⟩
  · exact ⟨_, rfl, rfl, rfl, rfl⟩

theorem parse_pair_print0 (x y : ℚ) (hx : IsDecimal x) (hy : IsDecimal y)
    (rest : List Char) (hgr : GoodRest rest) :
    parse_coordinate_pair (printPoint ⟨x, y⟩ ++ rest)
      = some (x, y, false, restAfter rest) := by
  have h1 : printPoint ⟨x, y⟩ ++ rest = printNumber x ++ (' ' :: (printNumber y ++ rest)) := by
    simp [printPoint, List.append_assoc]
  simp only [parse_coordinate_pair, parse_coordinate, h1,
    parse_number_print x hx _ (goodRest_printNumber y rest), restAfter_space,
    parse_number_print y hy rest hgr]

theorem parse_nonneg_space (l : List Char) :
    parse_nonnegative_number (' ' :: l) = parse_nonnegative_number l := by
  simp only [parse_nonnegative_number, parse_number_space]

theorem parse_nonneg_print (q : ℚ) (hq : IsDecimal q) (h0 : 0 ≤ q)
    (rest : List Char) (hgr : GoodRest rest) :
    parse_nonnegative_number (printNumber q ++ rest) = some (q, false, restAfter rest) := by
  simp only [parse_nonnegative_number, parse_number_print q hq rest hgr]
  rw [if_neg (not_lt.mpr h0)]

theorem goodRest_flag (b : Bool) (Y : List Char) :
    GoodRest (' ' :: (if b then '1' else '0') :: Y) := by
  cases b
  · exact Or.inr ⟨'0', Y, rfl, by decide, by decide⟩
  · exact Or.inr ⟨'1', Y, rfl, by decide, by decide⟩

theorem iter_Z (st : ParseState) (ctail : List Char)
    (hac : st.afterComma = false) (hX : st.cmd ≠ 'X') :
    parseIter st ('Z' :: ctail)
      = some ({ st with b := gsk_path_builder_close st.b, x := st.pathX, y := st.pathY,
                        cmd := 'Z', afterComma := false }, ctail) := by
  have hpc := parse_command_letter st.cmd 'Z' ctail hX (by decide) (by decide)
  simp [parseIter, hpc, hac]

theorem iter_L (st : ParseState) (p : GPoint) (hwp : pointWF p)
    (rest : List Char) (hgr : GoodRest rest) (hac : st.afterComma = false)
    (hX : st.cmd ≠ 'X') (hZ : st.cmd ≠ 'Z') (hz : st.cmd ≠ 'z') :
    ∃ st2, parseIter st (printSeg (.line p) ++ rest) = some (st2, restAfter rest) ∧
      st2.b = st.b.addSeg (.line p) ∧ st2.cmd = 'L' ∧ st2.afterComma = false := by
  have hpc := parse_command_letter st.cmd 'L' (' ' :: (printPoint p ++ rest)) hX
    (by decide) (by decide)
  have hpair := parse_pair_print p.x p.y hwp.1 hwp.2 rest hgr
  have hmr := maybeReopen_id st.cmd st hz hZ
  simp [printSeg, parseIter, hpc, hpair, hac, hmr, gsk_path_builder_line_to]

theorem iter_Q (st : ParseState) (p1 p2 : GPoint) (hw1 : pointWF p1) (hw2 : pointWF p2)
    (rest : List Char) (hgr : GoodRest rest) (hac : st.afterComma = false)
    (hX : st.cmd ≠ 'X') (hZ : st.cmd ≠ 'Z') (hz : st.cmd ≠ 'z') :
    ∃ st2, parseIter st (printSeg (.quad p1 p2) ++ rest) = some (st2, restAfter rest) ∧
      st2.b = st.b.addSeg (.quad p1 p2) ∧ st2.cmd = 'Q' ∧ st2.afterComma = false := by
  have hpc := parse_command_letter st.cmd 'Q'
    (' ' :: (printPoint p1 ++ (' ' :: (printPoint p2 ++ rest)))) hX (by decide) (by decide)
  have hp1 := parse_pair_print p1.x p1.y hw1.1 hw1.2 (' ' :: (printPoint p2 ++ rest))
    (goodRest_printPoint p2 rest)
  have hp2 := parse_pair_print0 p2.x p2.y hw2.1 hw2.2 rest hgr
  have hmr := maybeReopen_id st.cmd st hz hZ
  simp [printSeg, parseIter, hpc, hp1, restAfter_space, hp2, hac, hmr,
    gsk_path_builder_quad_to, List.append_assoc]

theorem iter_C (st : ParseState) (p1 p2 p3 : GPoint)
    (hw1 : pointWF p1) (hw2 : pointWF p2) (hw3 : pointWF p3)
    (rest : List Char) (hgr : GoodRest rest) (hac : st.afterComma = false)
    (hX : st.cmd ≠ 'X') (hZ : st.cmd ≠ 'Z') (hz : st.cmd ≠ 'z') :
    ∃ st2, parseIter st (printSeg (.cubic p1 p2 p3) ++ rest) = some (st2, restAfter rest) ∧
      st2.b = st.b.addSeg (.cubic p1 p2 p3) ∧ st2.cmd = 'C' ∧ st2.afterComma = false := by
  have hpc := parse_command_letter st.cmd 'C'
    (' ' :: (printPoint p1 ++ (' ' :: (printPoint p2 ++ (' ' :: (printPoint p3 ++ rest))))))
    hX (by decide) (by decide)
  have hp1 := parse_pair_print p1.x p1.y hw1.1 hw1.2
    (' ' :: (printPoint p2 ++ (' ' :: (printPoint p3 ++ rest))))
    (goodRest_printPoint p2 _)
  have hp2 := parse_pair_print0 p2.x p2.y hw2.1 hw2.2 (' ' :: (printPoint p3 ++ rest))
    (goodRest_printPoint p3 rest)
  have hp3 := parse_pair_print0 p3.x p3.y hw3.1 hw3.2 rest hgr
  have hmr := maybeReopen_id st.cmd st hz hZ
  simp [printSeg, parseIter, hpc, hp1, hp2, hp3, restAfter_space, hac, hmr,
    gsk_path_builder_cubic_to, List.append_assoc]

theorem iter_E (st : ParseState) (p1 p2 : GPoint) (hw1 : pointWF p1) (hw2 : pointWF p2)
    (rest : List Char) (hgr : GoodRest rest) (hac : st.afterComma = false)
    (hX : st.cmd ≠ 'X') (hZ : st.cmd ≠ 'Z') (hz : st.cmd ≠ 'z') :
    ∃ st2, parseIter st (printSeg (.arc p1 p2) ++ rest) = some (st2, restAfter rest) ∧
      st2.b = st.b.addSeg (.arc p1 p2) ∧ st2.cmd = 'E' ∧ st2.afterComma = false := by
  have hpc := parse_command_letter st.cmd 'E'
    (' ' :: (printPoint p1 ++ (' ' :: (printPoint p2 ++ rest)))) hX (by decide) (by decide)
  have hp1 := parse_pair_print p1.x p1.y hw1.1 hw1.2 (' ' :: (printPoint p2 ++ rest))
    (goodRest_printPoint p2 rest)
  have hp2 := parse_pair_print0 p2.x p2.y hw2.1 hw2.2 rest hgr
  have hmr := maybeReopen_id st.cmd st hz hZ
  simp [printSeg, parseIter, hpc, hp1, restAfter_space, hp2, hac, hmr,
    gsk_path_builder_arc_to, List.append_assoc]

theorem iter_A (st : ParseState) (rx ry rot : ℚ) (la sw : Bool) (p : GPoint)
    (hw : segWF (.svgArc rx ry rot la sw p))
    (rest : List Char) (hgr : GoodRest rest) (hac : st.afterComma = false)
    (hX : st.cmd ≠ 'X') (hZ : st.cmd ≠ 'Z') (hz : st.cmd ≠ 'z') :
    ∃ st2, parseIter st (printSeg (.svgArc rx ry rot la sw p) ++ rest)
        = some (st2, restAfter rest) ∧
      st2.b = st.b.addSeg (.svgArc rx ry rot la sw p) ∧ st2.cmd = 'A' ∧
      st2.afterComma = false := by
  obtain ⟨h0x, h0y, hdx, hdy, hdr, hwp⟩ := hw
  have hpc := parse_command_letter st.cmd 'A'
    (' ' :: (printNumber rx ++ (' ' :: (printNumber ry ++ (' ' :: (printNumber rot ++
      ' ' :: (if la then '1' else '0') :: ' ' :: (if sw then '1' else '0') :: ' ' ::
        (printPoint p ++ rest)))))))
    hX (by decide) (by decide)
  have hn1 := parse_nonneg_print rx hdx h0x
    (' ' :: (printNumber ry ++ (' ' :: (printNumber rot ++
      ' ' :: (if la then '1' else '0') :: ' ' :: (if sw then '1' else '0') :: ' ' ::
        (printPoint p ++ rest)))))
    (goodRest_printNumber ry _)
  have hn2 := parse_nonneg_print ry hdy h0y
    (' ' :: (printNumber rot ++
      ' ' :: (if la then '1' else '0') :: ' ' :: (if sw then '1' else '0') :: ' ' ::
        (printPoint p ++ rest)))
    (goodRest_printNumber rot _)
  have hn3 := parse_number_print rot hdr
    (' ' :: (if la then '1' else '0') :: ' ' :: (if sw then '1' else '0') :: ' ' ::
      (printPoint p ++ rest))
    (goodRest_flag la _)
  have hf1 := parse_flag_print la
    (' ' :: (if sw then '1' else '0') :: ' ' :: (printPoint p ++ rest))
    (goodRest_flag sw _)
  have hf2 := parse_flag_print sw (' ' :: (printPoint p ++ rest))
    (goodRest_printPoint p rest)
  have hpair := parse_pair_print0 p.x p.y hwp.1 hwp.2 rest hgr
  have hmr := maybeReopen_id st.cmd st hz hZ
  simp [printSeg, parseIter, hpc, parse_nonneg_space, hn1, restAfter_space, hn2,
    parse_number_space, hn3, hf1, hf2, hpair, hac, hmr,
    gsk_path_builder_svg_arc_to, List.append_assoc]

theorem parseLoop_step (fuel : ℕ) (st st2 : ParseState) (l l2 : List Char)
    (hne : l ≠ []) (hit : parseIter st l = some (st2, l2)) :
    parseLoop (fuel + 1) st l = parseLoop fuel st2 l2 := by
  match l with
  | c :: r => simp [parseLoop, hit]

theorem parseIter_space (st : ParseState) (l : List Char) :
    parseIter st (' ' :: l) = parseIter st l := by
  simp only [parseIter, parse_command_space]

theorem printSeg_cons (s : GSeg) :
    ∃ c t, printSeg s = c :: t ∧ isSpaceC c = false ∧ c ≠ ',' := by
  cases s with
  | line p => exact ⟨'L', _, rfl, by decide, by decide⟩
  | quad p1 p2 => exact ⟨'Q', _, rfl, by decide, by decide⟩
  | cubic p1 p2 p3 => exact ⟨'C', _, rfl, by decide, by decide⟩
  | arc p1 p2 => exact ⟨'E', _, rfl, by decide, by decide⟩
  | svgArc rx ry rot la sw p => exact ⟨'A', _, rfl, by decide, by decide⟩

theorem sepSegs_nil (tail : List Char) : sepSegs [] tail = tail := rfl

theorem sepSegs_cons (s : GSeg) (ss : List GSeg) (tail : List Char) :
    sepSegs (s :: ss) tail = ' ' :: (printSeg s ++ sepSegs ss tail) := rfl

theorem goodRest_sepSegs (segs : List GSeg) (tail : List Char) (h : GoodRest tail) :
    GoodRest (sepSegs segs tail) := by
  cases segs with
  | nil => exact h
  | cons s ss =>
    obtain ⟨c, t, hc, h1, h2⟩ := printSeg_cons s
    refine Or.inr ⟨c, t ++ sepSegs ss tail, ?_, h1, h2⟩
    rw [sepSegs_cons, hc, List.cons_append]

theorem iter_seg (st : ParseState) (s : GSeg) (hw : segWF s)
    (rest : List Char) (hgr : GoodRest rest) (hac : st.afterComma = false)
    (hX : st.cmd ≠ 'X') (hZ : st.cmd ≠ 'Z') (hz : st.cmd ≠ 'z') :
    ∃ st2, parseIter st (printSeg s ++ rest) = some (st2, restAfter rest) ∧
      st2.b = st.b.addSeg s ∧
      st2.cmd ≠ 'X' ∧ st2.cmd ≠ 'Z' ∧ st2.cmd ≠ 'z' ∧ st2.afterComma = false := by
  cases s with
  | line p =>
    obtain ⟨st2, h1, h2, h3, h4⟩ := iter_L st p hw rest hgr hac hX hZ hz
    exact ⟨st2, h1, h2, by rw [h3]; decide, by rw [h3]; decide, by rw [h3]; decide, h4⟩
  | quad p1 p2 =>
    obtain ⟨st2, h1, h2, h3, h4⟩ := iter_Q st p1 p2 hw.1 hw.2 rest hgr hac hX hZ hz
    exact ⟨st2, h1, h2, by rw [h3]; decide, by rw [h3]; decide, by rw [h3]; decide, h4⟩
  | cubic p1 p2 p3 =>
    obtain ⟨st2, h1, h2, h3, h4⟩ :=
      iter_C st p1 p2 p3 hw.1 hw.2.1 hw.2.2 rest hgr hac hX hZ hz
    exact ⟨st2, h1, h2, by rw [h3]; decide, by rw [h3]; decide, by rw [h3]; decide, h4⟩
  | arc p1 p2 =>
    obtain ⟨st2, h1, h2, h3, h4⟩ := iter_E st p1 p2 hw.1 hw.2 rest hgr hac hX hZ hz
    exact ⟨st2, h1, h2, by rw [h3]; decide, by rw [h3]; decide, by rw [h3]; decide, h4⟩
  | svgArc rx ry rot la sw p =>
    obtain ⟨st2, h1, h2, h3, h4⟩ := iter_A st rx ry rot la sw p hw rest hgr hac hX hZ hz
    exact ⟨st2, h1, h2, by rw [h3]; decide, by rw [h3]; decide, by rw [h3]; decide, h4⟩

theorem segs_loop (segs : List GSeg) (st : ParseState) (tail : List Char) (fuel : ℕ)
    (hws : ∀ s ∈ segs, segWF s) (hgt : GoodRest tail)
    (hX : st.cmd ≠ 'X') (hZ : st.cmd ≠ 'Z') (hz : st.cmd ≠ 'z')
    (hac : st.afterComma = false) :
    ∃ st2, parseLoop (segs.length + fuel) st (restAfter (sepSegs segs tail))
        = parseLoop fuel st2 (restAfter tail) ∧
      st2.b = segs.foldl GskPathBuilder.addSeg st.b ∧
      st2.cmd ≠ 'X' ∧ st2.cmd ≠ 'Z' ∧ st2.cmd ≠ 'z' ∧ st2.afterComma = false := by
  induction segs generalizing st with
  | nil =>
    refine ⟨st, ?_, rfl, hX, hZ, hz, hac⟩
    rw [List.length_nil, Nat.zero_add, sepSegs_nil]
  | cons s ss ih =>
    obtain ⟨st1, hit, hb, h1, h2, h3, hac1⟩ :=
      iter_seg st s (hws s (List.mem_cons_self s ss)) (sepSegs ss tail)
        (goodRest_sepSegs ss tail hgt) hac hX hZ hz
    obtain ⟨c, t, hc, -, -⟩ := printSeg_cons s
    have hne : printSeg s ++ sepSegs ss tail ≠ [] := by
      rw [hc]
      simp
    have hstep := parseLoop_step (ss.length + fuel) st st1 _ _ hne hit
    obtain ⟨st2, hrec, hb2, g1, g2, g3, g4⟩ :=
      ih st1 (fun s2 hs2 => hws s2 (List.mem_cons_of_mem s hs2)) h1 h2 h3 hac1
    refine ⟨st2, ?_, ?_, g1, g2, g3, g4⟩
    · rw [sepSegs_cons, restAfter_space]
      have harith : (s :: ss).length + fuel = (ss.length + fuel) + 1 := by
        simp [List.length_cons]
        omega
      rw [harith, hstep, hrec]
    · rw [hb2, hb, List.foldl_cons]

theorem addSegs_cur (segs : List GSeg) (d : List MContour) (p : GPoint)
    (acc : List GSeg) :
    List.foldl GskPathBuilder.addSeg ⟨d, some ⟨p, acc, false⟩⟩ segs
      = ⟨d, some ⟨p, acc ++ segs, false⟩⟩ := by
  induction segs generalizing acc with
  | nil => simp
  | cons s ss ih =>
    rw [List.foldl_cons]
    show List.foldl GskPathBuilder.addSeg ⟨d, some ⟨p, acc ++ [s], false⟩⟩ ss = _
    rw [ih (acc ++ [s])]
    simp

theorem addSegs_move (b : GskPathBuilder) (p : GPoint) (segs : List GSeg) :
    List.foldl GskPathBuilder.addSeg (gsk_path_builder_move_to b p) segs
      = ⟨b.flush, some ⟨p, segs, false⟩⟩ := by
  have h := addSegs_cur segs b.flush p []
  simpa [gsk_path_builder_move_to] using h

theorem flush_some (d : List MContour) (c : MContour) :
    GskPathBuilder.flush ⟨d, some c⟩ = d ++ [c] := rfl

theorem goodRest_of_ctail (ctail : List Char) (h : GoodCTail ctail) : GoodRest ctail := by
  rcases h with h | ⟨r, h⟩
  · exact Or.inl h
  · exact Or.inr ⟨'M', r, h, by decide, by decide⟩

theorem sepSegs_append (segs : List GSeg) (X Y : List Char) :
    sepSegs segs X ++ Y = sepSegs segs (X ++ Y) := by
  induction segs with
  | nil => rfl
  | cons s ss ih => simp [sepSegs_cons, List.append_assoc, ih]

theorem contour_loop (c : MContour) (st : ParseState) (sp ctail : List Char) (fuel : ℕ)
    (hwc : contourWF c) (hsp : sp = [] ∨ sp = [' ']) (hct : GoodCTail ctail)
    (hac : st.afterComma = false) :
    ∃ st2, parseLoop (contourIters c + fuel) st (sp ++ (gsk_contour_print c ++ ctail))
        = parseLoop fuel st2 (contourRest c ctail) ∧
      st2.b.flush = st.b.flush ++ [c] ∧ st2.afterComma = false := by
  obtain ⟨hwstart, hwsegs⟩ := hwc
  have htext : gsk_contour_print c ++ ctail
      = 'M' :: ' ' :: (printPoint c.start ++
          sepSegs c.segs ((if c.closed then [' ', 'Z'] else []) ++ ctail)) := by
    simp only [gsk_contour_print, List.cons_append, List.append_assoc, sepSegs_append]
  have hT : GoodRest ((if c.closed then [' ', 'Z'] else []) ++ ctail) := by
    by_cases hcl : c.closed
    · rw [if_pos hcl]
      exact Or.inr ⟨'Z', ctail, rfl, by decide, by decide⟩
    · rw [if_neg hcl, List.nil_append]
      exact goodRest_of_ctail ctail hct
  obtain ⟨st1, hitM, hb1, hcmd1, hac1⟩ :=
    iter_M st c.start hwstart (sepSegs c.segs ((if c.closed then [' ', 'Z'] else []) ++ ctail))
      (goodRest_sepSegs _ _ hT) hac
  have hitM2 : parseIter st (sp ++ (gsk_contour_print c ++ ctail))
      = some (st1, restAfter (sepSegs c.segs ((if c.closed then [' ', 'Z'] else []) ++ ctail))) := by
    rcases hsp with h | h <;> subst h
    · rw [List.nil_append, htext]
      exact hitM
    · show parseIter st (' ' :: (gsk_contour_print c ++ ctail)) = _
      rw [parseIter_space, htext]
      exact hitM
  have hne : sp ++ (gsk_contour_print c ++ ctail) ≠ [] := by
    rcases hsp with h | h <;> subst h <;> simp [gsk_contour_print]
  have hcmdX : st1.cmd ≠ 'X' := by rw [hcmd1]; decide
  have hcmdZ : st1.cmd ≠ 'Z' := by rw [hcmd1]; decide
  have hcmdz : st1.cmd ≠ 'z' := by rw [hcmd1]; decide
  by_cases hcl : c.closed = true
  · -- closed contour: one more iteration for the final Z
    have harith : contourIters c + fuel = (c.segs.length + (1 + fuel)) + 1 := by
      simp [contourIters, hcl]
      omega
    obtain ⟨st2, hrec, hb2, g1, g2, g3, g4⟩ :=
      segs_loop c.segs st1 ((if c.closed then [' ', 'Z'] else []) ++ ctail) (1 + fuel)
        hwsegs hT hcmdX hcmdZ hcmdz hac1
    have hZrest : restAfter ((if c.closed then [' ', 'Z'] else []) ++ ctail) = 'Z' :: ctail := by
      rw [if_pos hcl]
      simp [restAfter]
    have hZstep := iter_Z st2 ctail g4 g1
    have hZne : ('Z' :: ctail) ≠ [] := by simp
    refine ⟨{ st2 with b := gsk_path_builder_close st2.b, x := st2.pathX, y := st2.pathY, cmd := 'Z', afterComma := false }, ?_, ?_, ?_⟩
    · rw [harith, parseLoop_step _ _ _ _ _ hne hitM2, hrec, hZrest]
      have h1f : 1 + fuel = fuel + 1 := by omega
      rw [h1f, parseLoop_step fuel st2 _ _ _ hZne hZstep]
      rw [contourRest, if_pos hcl]
    · show (gsk_path_builder_close st2.b).flush = st.b.flush ++ [c]
      rw [hb2, hb1, addSegs_move]
      show GskPathBuilder.flush ⟨st.b.flush ++ [⟨c.start, c.segs, true⟩], none⟩ = _
      show st.b.flush ++ [⟨c.start, c.segs, true⟩] = _
      rw [← hcl]
    · rfl
  · -- open contour
    have hclf : c.closed = false := by
      revert hcl
      cases c.closed <;> simp
    have harith : contourIters c + fuel = (c.segs.length + fuel) + 1 := by
      simp [contourIters, hclf]
      omega
    obtain ⟨st2, hrec, hb2, g1, g2, g3, g4⟩ :=
      segs_loop c.segs st1 ((if c.closed then [' ', 'Z'] else []) ++ ctail) fuel
        hwsegs hT hcmdX hcmdZ hcmdz hac1
    refine ⟨st2, ?_, ?_, g4⟩
    · rw [harith, parseLoop_step _ _ _ _ _ hne hitM2, hrec]
      rw [contourRest, if_neg hcl, hclf]
      simp
    · rw [hb2, hb1, addSegs_move, flush_some]
      rw [← hclf]

theorem path_loop (cs : List MContour) : ∀ (st : ParseState) (sp : List Char) (fuel : ℕ),
    pathWF cs → (sp = [] ∨ (sp = [' '] ∧ cs ≠ [])) → st.afterComma = false →
    ∃ st2, parseLoop (pathIters cs + fuel) st (sp ++ gsk_path_print cs)
        = parseLoop fuel st2 [] ∧
      st2.b.flush = st.b.flush ++ cs ∧ st2.afterComma = false := by
  induction cs with
  | nil =>
    intro st sp fuel hw hsp hac
    rcases hsp with h | ⟨-, hne⟩
    · subst h
      refine ⟨st, ?_, by simp, hac⟩
      simp [pathIters, gsk_path_print]
    · exact absurd rfl hne
  | cons c cs ih =>
    intro st sp fuel hw hsp hac
    have harith : pathIters (c :: cs) + fuel = contourIters c + (pathIters cs + fuel) := by
      simp [pathIters]
      omega
    have hsp2 : sp = [] ∨ sp = [' '] := by
      rcases hsp with h | ⟨h, -⟩
      · exact Or.inl h
      · exact Or.inr h
    have hct : GoodCTail (printPathTail cs) := by
      cases cs with
      | nil => exact Or.inl rfl
      | cons c2 cs2 =>
        refine Or.inr ⟨(' ' :: (printPoint c2.start ++
          sepSegs c2.segs (if c2.closed then [' ', 'Z'] else []))) ++ printPathTail cs2, ?_⟩
        simp [printPathTail, gsk_contour_print]
    obtain ⟨st2, hloop, hflush, hac2⟩ :=
      contour_loop c st sp (printPathTail cs) (pathIters cs + fuel)
        (hw c (List.mem_cons_self c cs)) hsp2 hct hac
    have hrem : ∃ sp2, (sp2 = [] ∨ (sp2 = [' '] ∧ cs ≠ [])) ∧
        contourRest c (printPathTail cs) = sp2 ++ gsk_path_print cs := by
      cases cs with
      | nil =>
        refine ⟨[], Or.inl rfl, ?_⟩
        by_cases h : c.closed <;>
          simp [contourRest, restAfter, printPathTail, gsk_path_print, h]
      | cons c2 cs2 =>
        by_cases h : c.closed
        · refine ⟨[' '], Or.inr ⟨rfl, by simp⟩, ?_⟩
          simp [contourRest, h, printPathTail, gsk_path_print]
        · refine ⟨[], Or.inl rfl, ?_⟩
          simp [contourRest, h, printPathTail, restAfter, gsk_path_print]
    obtain ⟨sp2, hsp2ok, hremEq⟩ := hrem
    obtain ⟨st3, hl3, hf3, ha3⟩ :=
      ih st2 sp2 fuel (fun c2 hc2 => hw c2 (List.mem_cons_of_mem c hc2)) hsp2ok hac2
    refine ⟨st3, ?_, ?_, ha3⟩
    · rw [harith,
        show gsk_path_print (c :: cs) = gsk_contour_print c ++ printPathTail cs from rfl,
        hloop, hremEq, hl3]
    · rw [hf3, hflush]
      simp

theorem printSeg_len (s : GSeg) : 1 ≤ (printSeg s).length := by
  obtain ⟨c, t, hc, -, -⟩ := printSeg_cons s
  rw [hc]
  simp

theorem sepSegs_len (segs : List GSeg) (tail : List Char) :
    segs.length + tail.length ≤ (sepSegs segs tail).length := by
  induction segs with
  | nil => simp [sepSegs_nil]
  | cons s ss ih =>
    rw [sepSegs_cons]
    simp only [List.length_cons, List.length_append]
    have h := printSeg_len s
    omega

theorem contour_print_len (c : MContour) :
    contourIters c ≤ (gsk_contour_print c).length := by
  rw [gsk_contour_print]
  simp only [List.length_cons, List.length_append]
  have h1 := sepSegs_len c.segs (if c.closed then [' ', 'Z'] else [])
  have h2 : (if c.closed then 1 else 0)
      ≤ (if c.closed then ([' ', 'Z'] : List Char) else []).length := by
    by_cases h : c.closed <;> simp [h]
  simp only [contourIters]
  by_cases h : c.closed <;> simp [h] at h1 h2 ⊢ <;> omega

theorem printPathTail_len (cs : List MContour) :
    (gsk_path_print cs).length ≤ (printPathTail cs).length := by
  cases cs with
  | nil => simp [gsk_path_print, printPathTail]
  | cons c2 cs2 =>
    simp [gsk_path_print, printPathTail]

theorem path_print_len (cs : List MContour) :
    pathIters cs ≤ (gsk_path_print cs).length := by
  induction cs with
  | nil => simp [pathIters, gsk_path_print]
  | cons c cs ih =>
    have h1 := contour_print_len c
    have h2 := printPathTail_len cs
    have h3 : pathIters (c :: cs) = contourIters c + pathIters cs := by
      simp [pathIters]
    have h4 : (gsk_path_print (c :: cs)).length
        = (gsk_contour_print c).length + (printPathTail cs).length := by
      rw [show gsk_path_print (c :: cs) = gsk_contour_print c ++ printPathTail cs from rfl]
      simp
    omega

/-- C3: printing a path and parsing the result reproduces the path exactly,
operation by operation and coordinate by coordinate, for every path whose
numbers have finite decimal expansions (every float-coordinate path of the C
implementation does; exact equality is stronger than the epsilon bound of
the claim). -/
theorem parse_print_round_trip (cs : List MContour) (hw : pathWF cs) :
    gsk_path_parse (gsk_path_to_string cs) = some cs := by
  have hlen := path_print_len cs
  obtain ⟨st2, hloop, hflush, hac2⟩ :=
    path_loop cs initParseState [] ((gsk_path_print cs).length + 1 - pathIters cs)
      hw (Or.inl rfl) rfl
  rw [List.nil_append] at hloop
  have hdata : (gsk_path_to_string cs).data = gsk_path_print cs := rfl
  have harith : (gsk_path_print cs).length + 1
      = pathIters cs + ((gsk_path_print cs).length + 1 - pathIters cs) := by omega
  have hk : (gsk_path_print cs).length + 1 - pathIters cs
      = ((gsk_path_print cs).length - pathIters cs) + 1 := by omega
  rw [gsk_path_parse, hdata, harith, hloop, hk]
  rw [show parseLoop (((gsk_path_print cs).length - pathIters cs) + 1) st2 []
      = if st2.afterComma then none else some st2.b from rfl]
  rw [hac2]
  simp only [Bool.false_eq_true, if_false]
  show some (gsk_path_builder_free_to_path st2.b) = some cs
  rw [gsk_path_builder_free_to_path, hflush]
  rfl

theorem parse_command_repeat (cmd : Char) (l : List Char)
    (h : (parse_command cmd l).1 = true) : (parse_command cmd l).2.1 = cmd := by
  rcases hsw : skip_whitespace l with - | ⟨c, r⟩
  · simp only [parse_command, hsw]
  · simp only [parse_command, hsw] at h ⊢
    split_ifs at h ⊢
    all_goals rfl

/-- C9: a missing command letter repeats the previous command, except that
`Z` and `M` never repeat: with `Z`/`z` as previous command, further
arguments without a letter are a parse error, and with `M`/`m` as previous
command the extra coordinate pairs execute `line_to`, never another
`move_to`; an ordinary command such as `L`/`l` is simply executed again. -/
theorem command_repeat_rules (st : ParseState) (l : List Char)
    (hrep : (parse_command st.cmd l).1 = true) :
    ((st.cmd = 'Z' ∨ st.cmd = 'z') → parseIter st l = none) ∧
    ((st.cmd = 'M' ∨ st.cmd = 'm') → ∀ x1 y1 cm l2,
      parse_coordinate_pair (parse_command st.cmd l).2.2 = some (x1, y1, cm, l2) →
      ∃ st2, parseIter st l = some (st2, l2) ∧
        st2.b = gsk_path_builder_line_to st.b
          (if st.cmd = 'm' then x1 + st.x else x1)
          (if st.cmd = 'm' then y1 + st.y else y1)) ∧
    ((st.cmd = 'L' ∨ st.cmd = 'l') → ∀ x1 y1 cm l2,
      parse_coordinate_pair (parse_command st.cmd l).2.2 = some (x1, y1, cm, l2) →
      ∃ st2, parseIter st l = some (st2, l2) ∧
        st2.b = gsk_path_builder_line_to st.b
          (if st.cmd = 'l' then x1 + st.x else x1)
          (if st.cmd = 'l' then y1 + st.y else y1)) := by
  have hcmd := parse_command_repeat st.cmd l hrep
  rcases h : parse_command st.cmd l with ⟨rep, cmd, l1⟩
  rw [h] at hrep hcmd
  simp only at hrep hcmd
  subst hrep
  subst hcmd
  refine ⟨?_, ?_, ?_⟩
  · intro hcase
    rcases hcase with hZ | hZ <;> rw [hZ] at h <;> simp [parseIter, hZ, h]
  · intro hcase x1 y1 cm l2 hpair
    simp only at hpair
    rcases hcase with hM | hM <;> rw [hM] at h <;>
      simp [parseIter, hM, h, hpair]
  · intro hcase x1 y1 cm l2 hpair
    simp only at hpair
    rcases hcase with hL | hL <;> rw [hL] at h <;>
      simp [parseIter, hL, h, hpair, maybeReopen, gsk_path_builder_line_to]

/-- C9 witness: with `Z` as the previous command and numeric arguments
following without a command letter, the iteration is a parse error. -/
theorem command_repeat_rules_witness :
    parseIter ⟨⟨[], none⟩, 'Z', 0, 0, 0, 0, 0, 0, false⟩ "5 5".data = none :=
  (command_repeat_rules ⟨⟨[], none⟩, 'Z', 0, 0, 0, 0, 0, 0, false⟩ "5 5".data
    (by decide)).1 (Or.inl rfl)

/-- C2: parsing is transactional — a path is only ever produced by a
complete, error-free scan of the whole input (each error branch discards
the builder and returns nothing, so no partially-built path can escape);
representative inputs for each error class of the claim all parse to
nothing: a command before any `M`, a wrong argument count, an unparseable
number, an invalid flag character, trailing garbage, a stray trailing
comma, and a stray comma before a command letter. -/
theorem parse_transactional :
    (∀ s : String, gsk_path_parse s = none ∨
      ∃ b : GskPathBuilder,
        parseLoop (s.data.length + 1) initParseState s.data = some b ∧
        gsk_path_parse s = some (gsk_path_builder_free_to_path b)) ∧
    gsk_path_parse "L 1 2" = none ∧
    gsk_path_parse "M 1" = none ∧
    gsk_path_parse "M 1 x" = none ∧
    gsk_path_parse "M 0 0 A 1 1 0 2 0 5 5" = none ∧
    gsk_path_parse "M 1 2 #" = none ∧
    gsk_path_parse "M 1 2," = none ∧
    gsk_path_parse "M 1 2, L 3 4" = none := by
  refine ⟨?_, by decide, by decide, by decide, by with_unfolding_all rfl, by decide,
    by decide, by decide⟩
  intro s
  rcases hb : parseLoop (s.data.length + 1) initParseState s.data with - | b
  · left
    unfold gsk_path_parse
    rw [hb]
  · right
    refine ⟨b, rfl, ?_⟩
    unfold gsk_path_parse
    rw [hb]

/-- C3 witness: a concrete two-contour path (one closed contour with a line
and a quadratic, one single-point open contour) survives the print–parse
round trip unchanged. -/
theorem parse_print_round_trip_witness :
    gsk_path_parse (gsk_path_to_string
      [⟨⟨0, 0⟩, [.line ⟨10, 0⟩, .quad ⟨10, 10⟩ ⟨5, 5⟩], true⟩, ⟨⟨7, 3⟩, [], false⟩])
    = some [⟨⟨0, 0⟩, [.line ⟨10, 0⟩, .quad ⟨10, 10⟩ ⟨5, 5⟩], true⟩, ⟨⟨7, 3⟩, [], false⟩] :=
  parse_print_round_trip _ (by decide)


theorem skip_whitespace_len (l : List Char) : (skip_whitespace l).length ≤ l.length := by
  induction l with
  | nil => simp [skip_whitespace]
  | cons c r ih =>
    simp only [skip_whitespace]
    split_ifs
    · simp only [List.length_cons]
      omega
    · simp

theorem readDigits_len (l : List Char) (acc : ℕ) :
    (readDigits l acc).2.2.length + (readDigits l acc).2.1 = l.length := by
  induction l generalizing acc with
  | nil => simp [readDigits]
  | cons c r ih =>
    by_cases hc : c.isDigit = true
    · rcases hrd : readDigits r (10 * acc + digitVal c) with ⟨v, n, r2⟩
      have h2 := ih (10 * acc + digitVal c)
      rw [hrd] at h2
      simp only at h2
      simp only [readDigits, hc, if_true, hrd, List.length_cons]
      omega
    · simp [readDigits, hc]

theorem soc_len (l : List Char) : (skip_optional_comma l).2.length ≤ l.length := by
  have h := skip_whitespace_len l
  rcases hs : skip_whitespace l with - | ⟨c, r⟩ <;> rw [hs] at h
  · simp [skip_optional_comma, hs]
  · simp only [skip_optional_comma, hs]
    split_ifs <;> simp only [List.length_cons] at h ⊢ <;> omega

theorem strtodSign_len (l : List Char) : (strtodSign l).2.length ≤ l.length := by
  simp only [strtodSign]
  split_ifs
  · cases l <;> simp
  · simp

theorem strtodFrac_len (l : List Char) :
    (strtodFrac l).2.2.length + (strtodFrac l).2.1 ≤ l.length := by
  simp only [strtodFrac]
  split_ifs
  · have h := readDigits_len l.tail 0
    have h2 : l.tail.length ≤ l.length := by cases l <;> simp
    omega
  · simp

theorem strtodExp_len (l : List Char) : (strtodExp l).2.length ≤ l.length := by
  have htail : l.tail.length ≤ l.length := by cases l <;> simp
  have htail2 : l.tail.tail.length ≤ l.length := by
    cases l with
    | nil => simp
    | cons c r =>
      cases r with
      | nil => simp
      | cons d s =>
        simp only [List.tail_cons, List.length_cons]
        omega
  have h3 := readDigits_len l.tail.tail 0
  have h4 := readDigits_len l.tail 0
  simp only [strtodExp]
  split_ifs <;> (try simp) <;> omega

theorem strtod_consumes (l : List Char) (v : ℚ) (l5 : List Char)
    (h : g_ascii_strtod l = some (v, l5)) : l5.length < l.length := by
  simp only [g_ascii_strtod] at h
  by_cases h0 : (readDigits (strtodSign (skip_whitespace l)).2 0).2.1 +
      (strtodFrac (readDigits (strtodSign (skip_whitespace l)).2 0).2.2).2.1 = 0
  · rw [if_pos h0] at h
    cases h
  · rw [if_neg h0] at h
    have hinj : l5 = (strtodExp (strtodFrac
        (readDigits (strtodSign (skip_whitespace l)).2 0).2.2).2.2).2 := by
      have := (Option.some.inj h)
      exact (congrArg Prod.snd this).symm
    have e1 := skip_whitespace_len l
    have e2 := strtodSign_len (skip_whitespace l)
    have e3 := readDigits_len (strtodSign (skip_whitespace l)).2 0
    have e4 := strtodFrac_len (readDigits (strtodSign (skip_whitespace l)).2 0).2.2
    have e5 := strtodExp_len (strtodFrac
        (readDigits (strtodSign (skip_whitespace l)).2 0).2.2).2.2
    rw [hinj]
    omega

theorem parse_number_consumes (l : List Char) (v : ℚ) (cm : Bool) (l2 : List Char)
    (h : parse_number l = some (v, cm, l2)) : l2.length < l.length := by
  simp only [parse_number] at h
  rcases hs : g_ascii_strtod l with - | ⟨v1, l1⟩ <;> rw [hs] at h
  · cases h
  · have h1 := strtod_consumes l v1 l1 hs
    have h2 := soc_len l1
    simp only at h
    have hl : l2 = (skip_optional_comma l1).2 := by
      have := Option.some.inj h
      exact (congrArg (fun x => x.2.2) this).symm
    rw [hl]
    omega

theorem parse_coordinate_pair_consumes (l : List Char) (x y : ℚ) (cm : Bool)
    (l2 : List Char) (h : parse_coordinate_pair l = some (x, y, cm, l2)) :
    l2.length < l.length := by
  simp only [parse_coordinate_pair, parse_coordinate] at h
  rcases h1 : parse_number l with - | ⟨x1, cm1, l1⟩
  · simp [h1] at h
  · simp only [h1] at h
    rcases h2 : parse_number l1 with - | ⟨y1, cm2, l2b⟩
    · simp [h2] at h
    · simp only [h2] at h
      have c1 := parse_number_consumes l x1 cm1 l1 h1
      have c2 := parse_number_consumes l1 y1 cm2 l2b h2
      have hl : l2 = l2b := by
        have := Option.some.inj h
        exact (congrArg (fun p => p.2.2.2) this).symm
      rw [hl]
      omega

theorem parse_nonnegative_consumes (l : List Char) (v : ℚ) (cm : Bool) (l2 : List Char)
    (h : parse_nonnegative_number l = some (v, cm, l2)) : l2.length < l.length := by
  simp only [parse_nonnegative_number] at h
  rcases h1 : parse_number l with - | ⟨v1, cm1, l1⟩
  · simp [h1] at h
  · simp only [h1] at h
    split_ifs at h
    cases h
    exact parse_number_consumes l _ _ _ h1

theorem parse_flag_consumes (l : List Char) (b cm : Bool) (l2 : List Char)
    (h : parse_flag l = some (b, cm, l2)) : l2.length < l.length := by
  simp only [parse_flag] at h
  have hsw := skip_whitespace_len l
  rcases hs : skip_whitespace l with - | ⟨c, r⟩ <;> rw [hs] at h hsw
  · cases h
  · simp only at h
    split_ifs at h
    cases h
    have hr := soc_len r
    simp only [List.length_cons] at hsw
    omega

theorem parse_command_len (cmd : Char) (l : List Char) :
    (parse_command cmd l).2.2.length ≤ l.length ∧
    ((parse_command cmd l).1 = false → (parse_command cmd l).2.2.length < l.length) := by
  have hsw := skip_whitespace_len l
  rcases hs : skip_whitespace l with - | ⟨c, r⟩ <;> rw [hs] at hsw
  · simp [parse_command, hs]
  · have hsw2 : r.length + 1 ≤ l.length := by simpa using hsw
    by_cases hc : c ∈ (if cmd = 'X' then ['m', 'M'] else allCommandChars)
    · have hpc : parse_command cmd l = (false, c, r) := by
        simp [parse_command, hs, hc]
      rw [hpc]
      exact ⟨by show r.length ≤ l.length; omega,
        fun hf => by show r.length < l.length; omega⟩
    · have hpc : parse_command cmd l = (true, cmd, c :: r) := by
        simp [parse_command, hs, hc]
      rw [hpc]
      exact ⟨by show r.length + 1 ≤ l.length; omega, fun hf => Bool.noConfusion hf⟩


/-- Every successful iteration of the parse loop consumes at least one
character of input: a read command letter is consumed by `parse_command`,
and a repeated command consumes the characters of its first argument. -/
theorem parseIter_consumes (st : ParseState) (l : List Char) (st2 : ParseState)
    (l2 : List Char) (h : parseIter st l = some (st2, l2)) : l2.length < l.length := by
  rcases hpc : parse_command st.cmd l with ⟨rep, cmd, l1⟩
  have hcl := parse_command_len st.cmd l
  rw [hpc] at hcl
  simp only at hcl
  obtain ⟨hle, hlt⟩ := hcl
  simp only [parseIter, hpc] at h
  by_cases hA : (st.afterComma && !rep) = true
  · rw [if_pos hA] at h
    cases h
  · rw [if_neg hA] at h
    by_cases hX : cmd = 'X'
    · rw [if_pos hX] at h
      cases h
    · rw [if_neg hX] at h
      by_cases hZ : (decide (cmd = 'Z') || decide (cmd = 'z')) = true
      · rw [if_pos hZ] at h
        by_cases hrep : rep = true
        · rw [if_pos hrep] at h
          cases h
        · rw [if_neg hrep] at h
          cases h
          exact hlt (by simpa using hrep)
      · rw [if_neg hZ] at h
        by_cases hM : (decide (cmd = 'M') || decide (cmd = 'm')) = true
        · rw [if_pos hM] at h
          rcases hp1 : parse_coordinate_pair l1 with - | ⟨v0_0, v0_1, v0_2, m1⟩
          · simp [hp1] at h
          · simp only [hp1] at h
            have d1 := parse_coordinate_pair_consumes l1 _ _ _ _ hp1
            split_ifs at h <;> cases h <;> omega
        · rw [if_neg hM] at h
          by_cases hL : (decide (cmd = 'L') || decide (cmd = 'l')) = true
          · rw [if_pos hL] at h
            rcases hp1 : parse_coordinate_pair l1 with - | ⟨v0_0, v0_1, v0_2, m1⟩
            · simp [hp1] at h
            · simp only [hp1] at h
              have d1 := parse_coordinate_pair_consumes l1 _ _ _ _ hp1
              split_ifs at h <;> cases h <;> omega
          · rw [if_neg hL] at h
            by_cases hH : (decide (cmd = 'H') || decide (cmd = 'h')) = true
            · rw [if_pos hH] at h
              rcases hp1 : parse_coordinate l1 with - | ⟨v0_0, v0_1, m1⟩
              · simp [hp1] at h
              · simp only [hp1] at h
                have d1 := parse_number_consumes l1 _ _ _ hp1
                split_ifs at h <;> cases h <;> omega
            · rw [if_neg hH] at h
              by_cases hV : (decide (cmd = 'V') || decide (cmd = 'v')) = true
              · rw [if_pos hV] at h
                rcases hp1 : parse_coordinate l1 with - | ⟨v0_0, v0_1, m1⟩
                · simp [hp1] at h
                · simp only [hp1] at h
                  have d1 := parse_number_consumes l1 _ _ _ hp1
                  split_ifs at h <;> cases h <;> omega
              · rw [if_neg hV] at h
                by_cases hC : (decide (cmd = 'C') || decide (cmd = 'c')) = true
                · rw [if_pos hC] at h
                  rcases hp1 : parse_coordinate_pair l1 with - | ⟨v0_0, v0_1, v0_2, m1⟩
                  · simp [hp1] at h
                  · simp only [hp1] at h
                    rcases hp2 : parse_coordinate_pair m1 with - | ⟨v1_0, v1_1, v1_2, m2⟩
                    · simp [hp2] at h
                    · simp only [hp2] at h
                      rcases hp3 : parse_coordinate_pair m2 with - | ⟨v2_0, v2_1, v2_2, m3⟩
                      · simp [hp3] at h
                      · simp only [hp3] at h
                        have d1 := parse_coordinate_pair_consumes l1 _ _ _ _ hp1
                        have d2 := parse_coordinate_pair_consumes m1 _ _ _ _ hp2
                        have d3 := parse_coordinate_pair_consumes m2 _ _ _ _ hp3
                        split_ifs at h <;> cases h <;> omega
                · rw [if_neg hC] at h
                  by_cases hS : (decide (cmd = 'S') || decide (cmd = 's')) = true
                  · rw [if_pos hS] at h
                    rcases hp1 : parse_coordinate_pair l1 with - | ⟨v0_0, v0_1, v0_2, m1⟩
                    · simp [hp1] at h
                    · simp only [hp1] at h
                      rcases hp2 : parse_coordinate_pair m1 with - | ⟨v1_0, v1_1, v1_2, m2⟩
                      · simp [hp2] at h
                      · simp only [hp2] at h
                        have d1 := parse_coordinate_pair_consumes l1 _ _ _ _ hp1
                        have d2 := parse_coordinate_pair_consumes m1 _ _ _ _ hp2
                        split_ifs at h <;> cases h <;> omega
                  · rw [if_neg hS] at h
                    by_cases hQ : (decide (cmd = 'Q') || decide (cmd = 'q')) = true
                    · rw [if_pos hQ] at h
                      rcases hp1 : parse_coordinate_pair l1 with - | ⟨v0_0, v0_1, v0_2, m1⟩
                      · simp [hp1] at h
                      · simp only [hp1] at h
                        rcases hp2 : parse_coordinate_pair m1 with - | ⟨v1_0, v1_1, v1_2, m2⟩
                        · simp [hp2] at h
                        · simp only [hp2] at h
                          have d1 := parse_coordinate_pair_consumes l1 _ _ _ _ hp1
                          have d2 := parse_coordinate_pair_consumes m1 _ _ _ _ hp2
                          split_ifs at h <;> cases h <;> omega
                    · rw [if_neg hQ] at h
                      by_cases hT : (decide (cmd = 'T') || decide (cmd = 't')) = true
                      · rw [if_pos hT] at h
                        rcases hp1 : parse_coordinate_pair l1 with - | ⟨v0_0, v0_1, v0_2, m1⟩
                        · simp [hp1] at h
                        · simp only [hp1] at h
                          have d1 := parse_coordinate_pair_consumes l1 _ _ _ _ hp1
                          split_ifs at h <;> cases h <;> omega
                      · rw [if_neg hT] at h
                        by_cases hA : (decide (cmd = 'A') || decide (cmd = 'a')) = true
                        · rw [if_pos hA] at h
                          rcases hp1 : parse_nonnegative_number l1 with - | ⟨v0_0, v0_1, m1⟩
                          · simp [hp1] at h
                          · simp only [hp1] at h
                            rcases hp2 : parse_nonnegative_number m1 with - | ⟨v1_0, v1_1, m2⟩
                            · simp [hp2] at h
                            · simp only [hp2] at h
                              rcases hp3 : parse_number m2 with - | ⟨v2_0, v2_1, m3⟩
                              · simp [hp3] at h
                              · simp only [hp3] at h
                                rcases hp4 : parse_flag m3 with - | ⟨v3_0, v3_1, m4⟩
                                · simp [hp4] at h
                                · simp only [hp4] at h
                                  rcases hp5 : parse_flag m4 with - | ⟨v4_0, v4_1, m5⟩
                                  · simp [hp5] at h
                                  · simp only [hp5] at h
                                    rcases hp6 : parse_coordinate_pair m5 with - | ⟨v5_0, v5_1, v5_2, m6⟩
                                    · simp [hp6] at h
                                    · simp only [hp6] at h
                                      have d1 := parse_nonnegative_consumes l1 _ _ _ hp1
                                      have d2 := parse_nonnegative_consumes m1 _ _ _ hp2
                                      have d3 := parse_number_consumes m2 _ _ _ hp3
                                      have d4 := parse_flag_consumes m3 _ _ _ hp4
                                      have d5 := parse_flag_consumes m4 _ _ _ hp5
                                      have d6 := parse_coordinate_pair_consumes m5 _ _ _ _ hp6
                                      split_ifs at h <;> cases h <;> omega
                        · rw [if_neg hA] at h
                          by_cases hE : (decide (cmd = 'E') || decide (cmd = 'e')) = true
                          · rw [if_pos hE] at h
                            rcases hp1 : parse_coordinate_pair l1 with - | ⟨v0_0, v0_1, v0_2, m1⟩
                            · simp [hp1] at h
                            · simp only [hp1] at h
                              rcases hp2 : parse_coordinate_pair m1 with - | ⟨v1_0, v1_1, v1_2, m2⟩
                              · simp [hp2] at h
                              · simp only [hp2] at h
                                have d1 := parse_coordinate_pair_consumes l1 _ _ _ _ hp1
                                have d2 := parse_coordinate_pair_consumes m1 _ _ _ _ hp2
                                split_ifs at h <;> cases h <;> omega
                          · rw [if_neg hE] at h
                            cases h

/-- The fuel given to `parseLoop` is irrelevant once it exceeds the input
length, because every iteration strictly consumes input: the fuel-based
model therefore computes exactly the unbounded C `while` loop. -/
theorem parseLoop_fuel_irrelevant : ∀ (n : ℕ) (l : List Char), l.length ≤ n →
    ∀ f1 f2 st, l.length < f1 → l.length < f2 →
    parseLoop f1 st l = parseLoop f2 st l := by
  intro n
  induction n with
  | zero =>
    intro l hl f1 f2 st h1 h2
    have hnil : l = [] := List.eq_nil_of_length_eq_zero (Nat.le_zero.mp hl)
    subst hnil
    obtain ⟨g1, rfl⟩ := Nat.exists_eq_succ_of_ne_zero (by omega : f1 ≠ 0)
    obtain ⟨g2, rfl⟩ := Nat.exists_eq_succ_of_ne_zero (by omega : f2 ≠ 0)
    simp [parseLoop]
  | succ n ih =>
    intro l hl f1 f2 st h1 h2
    obtain ⟨g1, rfl⟩ := Nat.exists_eq_succ_of_ne_zero (by omega : f1 ≠ 0)
    obtain ⟨g2, rfl⟩ := Nat.exists_eq_succ_of_ne_zero (by omega : f2 ≠ 0)
    cases l with
    | nil => simp [parseLoop]
    | cons c r =>
      simp only [parseLoop]
      rcases hi : parseIter st (c :: r) with - | ⟨st2, l2⟩
      · simp [hi]
      · simp only [hi]
        have hc := parseIter_consumes st (c :: r) st2 l2 hi
        simp only [List.length_cons] at hc hl h1 h2
        exact ih l2 (by omega) g1 g2 st2 (by omega) (by omega)

/-- The `length + 1` fuel used by `gsk_path_parse` is canonical: any larger
fuel computes the same result. -/
theorem gsk_path_parse_fuel_canonical (s : String) (fuel : ℕ)
    (hf : s.data.length < fuel) :
    parseLoop fuel initParseState s.data =
    parseLoop (s.data.length + 1) initParseState s.data :=
  parseLoop_fuel_irrelevant s.data.length s.data le_rfl fuel _ initParseState hf
    (Nat.lt_succ_self _)
